import Mathlib

/-!
Verification of the tick-to-signal pipeline of the fyer-api-test repository.

The development shallowly embeds the JavaScript sources:
 * `src/strategy.js`   — resolution normalisation, W/M rollup, `#analyze`,
   `#diff` (edge-triggered signal emission), `tick`, `#ensureDaily`,
   `#ensureSMA`, `getBearishSignals`;
 * `src/tradingService.js` — `maxDaysFor`, `RateLimiter`, `_fetch`;
 * `candleDB.js`       — `normalizeResolution`, `storeCandles`, `getCandles`,
   `getCachedSMA`, `getAllSMA`, `cacheSMA`, `_recalcSMA`.

Conventions of the embedding:
 * JS numbers are modelled as `ℚ` (prices, volumes, SMA values, limiter
   tokens) or `ℤ` (epoch seconds); `null`/`undefined` become `Option`.
 * `moment` calendar computations are modelled in UTC: an epoch timestamp is
   converted to a civil date with the standard proleptic-Gregorian algorithms
   and the ISO-8601 week rule (the week of a date's Thursday).
 * SQLite tables are modelled as insertion-ordered lists of rows;
   `INSERT OR REPLACE` replaces in place on primary-key collision, otherwise
   appends; `ORDER BY` on a TEXT column is lexicographic byte order, modelled
   by a lexicographic order on `List Char`.
 * JS `Array.prototype.sort` and SQLite `ORDER BY` are stable; both are
   modelled by `List.insertionSort`, which is stable.
-/

/-! ## Calendar arithmetic (model of the `moment` calls used by the code) -/

/-- Day number (days since 1970-01-01) of an epoch-seconds timestamp. -/
def dayOfTs (ts : ℤ) : ℤ := Int.fdiv ts 86400

/-- Civil date `(year, month, day)` from a day number
(Gregorian calendar, days since 1970-01-01). -/
def civilFromDays (z : ℤ) : ℤ × ℤ × ℤ :=
  let z2 := z + 719468
  let era := Int.fdiv z2 146097
  let doe := z2 - era * 146097
  let yoe := Int.fdiv (doe - Int.fdiv doe 1460 + Int.fdiv doe 36524 - Int.fdiv doe 146096) 365
  let y := yoe + era * 400
  let doy := doe - (365 * yoe + Int.fdiv yoe 4 - Int.fdiv yoe 100)
  let mp := Int.fdiv (5 * doy + 2) 153
  let d := doy - Int.fdiv (153 * mp + 2) 5 + 1
  let m := mp + (if mp < 10 then 3 else -9)
  (y + (if m ≤ 2 then 1 else 0), m, d)

/-- Day number of a civil date (inverse of `civilFromDays`). -/
def daysFromCivil (y m d : ℤ) : ℤ :=
  let y2 := y - (if m ≤ 2 then 1 else 0)
  let era := Int.fdiv y2 400
  let yoe := y2 - era * 400
  let mp := m + (if 2 < m then -3 else 9)
  let doy := Int.fdiv (153 * mp + 2) 5 + d - 1
  let doe := yoe * 365 + Int.fdiv yoe 4 - Int.fdiv yoe 100 + doy
  era * 146097 + doe - 719468

/-- Calendar year of a day number (model of `moment(...).year()`). -/
def yearOfDay (z : ℤ) : ℤ := (civilFromDays z).1

/-- Calendar month (1–12) of a day number (model of `moment(...).format("MM")`). -/
def monthOfDay (z : ℤ) : ℤ := (civilFromDays z).2.1

/-- ISO weekday (Mon = 1 … Sun = 7) of a day number. -/
def isoWeekdayOfDay (z : ℤ) : ℤ := Int.fmod (z + 3) 7 + 1

/-- ISO-8601 week number of a day number (model of `moment(...).isoWeek()`):
the week of the date's Thursday, counted within that Thursday's year. -/
def isoWeekOfDay (z : ℤ) : ℤ :=
  let thu := z + (4 - isoWeekdayOfDay z)
  let y := yearOfDay thu
  Int.fdiv (thu - daysFromCivil y 1 1) 7 + 1

/-! ## Candles and the W/M rollup (`strategy.js` lines 16–32,
`tradingService.js` `_rollup`) -/

/-- One OHLCV candle: the JS arrays `[T, O, H, L, C, V]` of the code. -/
structure Candle where
  t : ℤ
  o : ℚ
  h : ℚ
  l : ℚ
  c : ℚ
  v : ℚ
  deriving DecidableEq, Repr

/-- Rollup mode: weekly or monthly. -/
inductive RMode where
  | W
  | M
  deriving DecidableEq, Repr

/-- Grouping key of the rollup: `${isoWeek}_${year}` for weekly,
`${year}_${MM}` for monthly — modelled as the corresponding integer pair. -/
def rollKey (mode : RMode) (c : Candle) : ℤ × ℤ :=
  let d := dayOfTs c.t
  match mode with
  | RMode.W => (isoWeekOfDay d, yearOfDay d)
  | RMode.M => (yearOfDay d, monthOfDay d)

/-- Merge one more candle of a group into the group's accumulated candle:
`p[H] = max(p[H], c[H]); p[L] = min(p[L], c[L]); p[C] = c[C]; p[V] += c[V]`. -/
def rollMerge (p c : Candle) : Candle :=
  { p with h := max p.h c.h, l := min p.l c.l, c := c.c, v := p.v + c.v }

/-- One step of the rollup fold over the insertion-ordered key map
(`if (!m.has(k)) m.set(k, [...c]) else { merge }`). -/
def rollStep (key : Candle → ℤ × ℤ) (st : List ((ℤ × ℤ) × Candle)) (c : Candle) :
    List ((ℤ × ℤ) × Candle) :=
  if st.any (fun e => e.1 = key c) then
    st.map (fun e => if e.1 = key c then (e.1, rollMerge e.2 c) else e)
  else
    st ++ [(key c, c)]

/-- The rollup's accumulated key map after folding over all daily candles. -/
def rollFold (key : Candle → ℤ × ℤ) (daily : List Candle) : List ((ℤ × ℤ) × Candle) :=
  daily.foldl (rollStep key) []

/-- Ordering of candles by timestamp (the JS comparator `(a, b) => a[T] - b[T]`). -/
def tleC (a b : Candle) : Prop := a.t ≤ b.t

instance : DecidableRel tleC := fun a b => inferInstanceAs (Decidable (a.t ≤ b.t))

instance : IsTotal Candle tleC := ⟨fun a b => le_total a.t b.t⟩

instance : IsTrans Candle tleC := ⟨fun _ _ _ hab hbc => le_trans hab hbc⟩

/-- The W/M rollup of `strategy.js` (lines 16–32) and `tradingService._rollup`:
fold the daily candles into the per-key map, take the values, sort by
timestamp ascending. -/
def rollup (mode : RMode) (daily : List Candle) : List Candle :=
  List.insertionSort tleC ((rollFold (rollKey mode) daily).map (fun e => e.2))

/-! ## Specification-side view of the rollup (spec §4.3) -/

/-- One step of insertion-ordered grouping: a group is stored as
`(key, first member, later members in arrival order)`. -/
def groupStep (key : Candle → ℤ × ℤ) (st : List ((ℤ × ℤ) × Candle × List Candle))
    (c : Candle) : List ((ℤ × ℤ) × Candle × List Candle) :=
  if st.any (fun e => e.1 = key c) then
    st.map (fun e => if e.1 = key c then (e.1, e.2.1, e.2.2 ++ [c]) else e)
  else
    st ++ [(key c, c, [])]

/-- Group a candle list by key, preserving first-occurrence order of groups
and arrival order inside each group. -/
def groupByKey (key : Candle → ℤ × ℤ) (l : List Candle) :
    List ((ℤ × ℤ) × Candle × List Candle) :=
  l.foldl (groupStep key) []

/-- Modelled from the spec: the output candle of one group — "open = the
first member's open in arrival order, high = max of the group's highs,
low = min of the lows, close = the last member's close, and volume = the sum
of volumes", with the first member's timestamp as representative. -/
def aggSpec (g : (ℤ × ℤ) × Candle × List Candle) : Candle :=
  let x := g.2.1
  let xs := g.2.2
  { t := x.t
    o := x.o
    h := xs.foldl (fun m y => max m y.h) x.h
    l := xs.foldl (fun m y => min m y.l) x.l
    c := (xs.map Candle.c).getLastD x.c
    v := x.v + (xs.map Candle.v).sum }

/-- Pair each group with its aggregated candle. -/
def convGroups (st : List ((ℤ × ℤ) × Candle × List Candle)) :
    List ((ℤ × ℤ) × Candle) :=
  st.map (fun g => (g.1, aggSpec g))

theorem rollMerge_agg (k : ℤ × ℤ) (x : Candle) (xs : List Candle) (c : Candle) :
    rollMerge (aggSpec (k, x, xs)) c = aggSpec (k, x, xs ++ [c]) := by
  simp [rollMerge, aggSpec, List.foldl_append, List.map_append, add_assoc]

theorem aggSpec_single (k : ℤ × ℤ) (c : Candle) : aggSpec (k, c, []) = c := by
  simp [aggSpec]

theorem anyMapGen {α β : Type} (f : α → β) (p : β → Bool) (l : List α) :
    (l.map f).any p = l.any (fun a => p (f a)) := by
  induction l with
  | nil => rfl
  | cons a l ih => simp [List.any_cons, ih]

theorem rollStep_convGroups (key : Candle → ℤ × ℤ)
    (st : List ((ℤ × ℤ) × Candle × List Candle)) (c : Candle) :
    rollStep key (convGroups st) c = convGroups (groupStep key st c) := by
  unfold rollStep groupStep convGroups
  rw [anyMapGen]
  split
  · rw [List.map_map, List.map_map]
    apply List.map_congr_left
    intro e _
    obtain ⟨k, x, xs⟩ := e
    by_cases hk : k = key c
    · simp only [Function.comp_apply, hk, if_pos rfl]
      exact congrArg (fun z => (key c, z)) (rollMerge_agg (key c) x xs c)
    · simp [Function.comp_apply, hk]
  · rw [List.map_append]
    simp [aggSpec_single]

theorem rollFold_eq_groups (key : Candle → ℤ × ℤ) (l : List Candle) :
    rollFold key l = convGroups (groupByKey key l) := by
  have h : ∀ st, List.foldl (rollStep key) (convGroups st) l
      = convGroups (List.foldl (groupStep key) st l) := by
    induction l with
    | nil => intro st; rfl
    | cons c l ih =>
      intro st
      simp only [List.foldl_cons, rollStep_convGroups]
      exact ih _
  have h0 := h []
  simpa [rollFold, groupByKey, convGroups] using h0

/-- C5: the W/M rollup groups daily candles by ISO-week-and-year (weekly) or
year-and-month (monthly); each group's output candle takes the first member's
timestamp and open, the maximum high, the minimum low, the last member's
close and the summed volume; the output is sorted ascending by the group's
first member's timestamp. -/
theorem rollup_groups_and_aggregates (mode : RMode) (daily : List Candle) :
    rollup mode daily
      = List.insertionSort tleC ((groupByKey (rollKey mode) daily).map aggSpec)
    ∧ (rollup mode daily).Sorted tleC
    ∧ ∀ g ∈ groupByKey (rollKey mode) daily,
        (aggSpec g).t = g.2.1.t ∧ (aggSpec g).o = g.2.1.o := by
  refine ⟨?_, ?_, ?_⟩
  · unfold rollup
    rw [rollFold_eq_groups]
    unfold convGroups
    rw [List.map_map]
    rfl
  · exact List.sorted_insertionSort tleC _
  · intro g _
    exact ⟨rfl, rfl⟩

/-! ## Resolution normalisation (`strategy.setResolution` lines 109–124 and the
identical chain in `tradingService.getHistoricalData` lines 199–206).

Raw user input is an arbitrary string, modelled as `List Char`. The JS chain
is `String(res).toUpperCase().trim()` followed by the sequential rules
`"240"→"120"`, `/^\d+M$/ → strip M`, `/^\d+H$/ → minutes`, `"1D"→"D"`,
then the validity check; failure throws, modelled by `none`. -/

/-- Decide whether a character is an ASCII digit. -/
def isDigitC (c : Char) : Bool := 48 ≤ c.toNat && c.toNat ≤ 57

/-- ASCII upper-casing of one character (model of `toUpperCase`). -/
def upChar (c : Char) : Char :=
  if 97 ≤ c.toNat ∧ c.toNat ≤ 122 then Char.ofNat (c.toNat - 32) else c

/-- Whitespace characters removed by `trim`. -/
def isWsC (c : Char) : Bool := c = ' ' || c = '\t' || c = '\n' || c = '\r'

/-- Model of `String.prototype.trim`: drop whitespace from both ends. -/
def trimC (l : List Char) : List Char :=
  ((l.dropWhile isWsC).reverse.dropWhile isWsC).reverse

/-- Test for the regexes `/^\d+M$/` and `/^\d+H$/` (on already-uppercased
input): one or more digits followed by the given final letter. -/
def numSuffix (suf : Char) (l : List Char) : Bool :=
  match l.getLast? with
  | some x => x = suf && !l.dropLast.isEmpty && l.dropLast.all isDigitC
  | none => false

/-- Numeric value of a digit string (the `parseInt` of the `\d+H` branch,
which stops at the `H`). -/
def digitsVal (l : List Char) : ℕ := l.foldl (fun n c => n * 10 + (c.toNat - 48)) 0

/-- Digit character of a value `d < 10`. -/
def digitChar (d : ℕ) : Char := Char.ofNat (48 + d)

/-- Decimal digit string, with structural fuel (first argument) so that the
kernel can evaluate it; the fuel `n + 1` of `natDigits` always suffices. -/
def natDigitsAux : ℕ → ℕ → List Char
  | 0, _ => []
  | fuel + 1, n =>
    if n < 10 then [digitChar n]
    else natDigitsAux fuel (n / 10) ++ [digitChar (n % 10)]

/-- Decimal digit string of a natural number (the JS `String(n)`). -/
def natDigits (n : ℕ) : List Char := natDigitsAux (n + 1) n

/-- The validity check at the end of `setResolution`:
`r !== "D" && r !== "W" && r !== "M" && !/^\d+$/.test(r)` throws. -/
def acceptRes (l : List Char) : Bool :=
  l = ['D'] || l = ['W'] || l = ['M'] || (!l.isEmpty && l.all isDigitC)

/-- The sequential rewrite chain of `setResolution` before its validity
check: uppercase + trim, then `"240"→"120"`, `\d+M` strip, `\d+H` to
minutes, `"1D"→"D"`. -/
def normalizeCore (input : List Char) : List Char :=
  let r0 := trimC (input.map upChar)
  let r1 := if r0 = ['2', '4', '0'] then ['1', '2', '0'] else r0
  let r2 := if numSuffix 'M' r1 then r1.dropLast else r1
  let r3 := if numSuffix 'H' r2 then natDigits (digitsVal r2.dropLast * 60) else r2
  if r3 = ['1', 'D'] then ['D'] else r3

/-- The resolution normaliser shared by `strategy.setResolution` and
`tradingService.getHistoricalData`; `none` models the thrown
`Invalid resolution` / `Bad resolution` error. -/
def normalizeRes (input : List Char) : Option (List Char) :=
  if acceptRes (normalizeCore input) then some (normalizeCore input) else none

theorem upChar_digit {c : Char} (h : isDigitC c = true) : upChar c = c := by
  simp only [isDigitC, Bool.and_eq_true, decide_eq_true_eq] at h
  unfold upChar
  rw [if_neg]
  omega

theorem isWsC_digit {c : Char} (h : isDigitC c = true) : isWsC c = false := by
  simp only [isDigitC, Bool.and_eq_true, decide_eq_true_eq] at h
  by_contra hw
  rw [Bool.not_eq_false] at hw
  simp only [isWsC, Bool.or_eq_true, decide_eq_true_eq] at hw
  rcases hw with ((h1 | h1) | h1) | h1 <;> (subst h1; revert h; decide)

theorem dropWhileWs_digits {l : List Char} (h : l.all isDigitC = true) :
    l.dropWhile isWsC = l := by
  cases l with
  | nil => rfl
  | cons a l =>
    simp only [List.all_cons, Bool.and_eq_true] at h
    simp [List.dropWhile_cons, isWsC_digit h.1]

theorem trimC_digits {l : List Char} (h : l.all isDigitC = true) : trimC l = l := by
  have hrev : l.reverse.all isDigitC = true := by
    rw [List.all_eq_true] at h ⊢
    intro x hx
    exact h x (List.mem_reverse.mp hx)
  unfold trimC
  rw [dropWhileWs_digits h, dropWhileWs_digits hrev, List.reverse_reverse]

theorem mapUp_digits {l : List Char} (h : l.all isDigitC = true) :
    l.map upChar = l := by
  rw [List.all_eq_true] at h
  have h2 : l.map upChar = l.map id := List.map_congr_left fun x hx => upChar_digit (h x hx)
  simpa using h2

theorem numSuffix_digits_false {suf : Char} {l : List Char}
    (hsuf : isDigitC suf = false) (hall : l.all isDigitC = true) :
    numSuffix suf l = false := by
  unfold numSuffix
  cases hx : l.getLast? with
  | none => rfl
  | some x =>
    have hmem : x ∈ l := List.mem_of_mem_getLast? hx
    have hdig : isDigitC x = true := List.all_eq_true.mp hall x hmem
    have hne : x ≠ suf := by
      intro he
      rw [he, hsuf] at hdig
      exact Bool.false_ne_true hdig
    simp [hne]

theorem acceptRes_digits {l : List Char} (hne : l ≠ []) (hall : l.all isDigitC = true) :
    acceptRes l = true := by
  have hie : l.isEmpty = false := by
    cases l with
    | nil => exact absurd rfl hne
    | cons a l => rfl
  simp [acceptRes, hie, hall]

theorem normalizeCore_digits {l : List Char} (hall : l.all isDigitC = true)
    (h240 : l ≠ ['2', '4', '0']) : normalizeCore l = l := by
  have hup : l.map upChar = l := mapUp_digits hall
  have htr : trimC l = l := trimC_digits hall
  have hM : numSuffix 'M' l = false := numSuffix_digits_false (by decide) hall
  have hH : numSuffix 'H' l = false := numSuffix_digits_false (by decide) hall
  have h1D : l ≠ ['1', 'D'] := by
    intro he
    rw [he] at hall
    exact absurd hall (by decide)
  simp only [normalizeCore, hup, htr, if_neg h240, hM, hH, Bool.false_eq_true,
    if_false, if_neg h1D]

theorem normalizeRes_digits {l : List Char} (hne : l ≠ [])
    (hall : l.all isDigitC = true) (h240 : l ≠ ['2', '4', '0']) :
    normalizeRes l = some l := by
  unfold normalizeRes
  rw [normalizeCore_digits hall h240, acceptRes_digits hne hall, if_pos rfl]

theorem normalizeRes_accept {x r : List Char} (h : normalizeRes x = some r) :
    acceptRes r = true := by
  unfold normalizeRes at h
  split at h
  · injection h with h2
    subst h2
    assumption
  · exact absurd h (by simp)

theorem normalizeRes_idem_of_ne240 {x r : List Char} (h : normalizeRes x = some r)
    (h240 : r ≠ ['2', '4', '0']) : normalizeRes r = some r := by
  have hacc := normalizeRes_accept h
  simp only [acceptRes, Bool.or_eq_true, Bool.and_eq_true, decide_eq_true_eq,
    Bool.not_eq_true'] at hacc
  rcases hacc with ((hD | hW) | hM) | ⟨hie, hall⟩
  · subst hD; decide
  · subst hW; decide
  · subst hM; decide
  · have hne : r ≠ [] := by
      intro he
      rw [he] at hie
      simp at hie
    exact normalizeRes_digits hne hall h240

/-- C2 (counterexample): resolution normalisation is not idempotent on the
valid input `"4H"` — the `\d+H` rule yields `"240"` (the `"240"→"120"` rule
has already run), and a second application maps `"240"` to `"120"`. -/
theorem normalizeRes_4H_not_idempotent :
    normalizeRes ['4', 'H'] = some ['2', '4', '0']
    ∧ (normalizeRes ['4', 'H']).bind normalizeRes = some ['1', '2', '0']
    ∧ (['1', '2', '0'] : List Char) ≠ ['2', '4', '0'] := by
  refine ⟨by decide, by decide, by decide⟩

/-- C2 (amended): normalisation is idempotent on every accepted input whose
normalised form is not `"240"`; inputs such as `"4H"` normalise to `"240"`,
which a second application maps to `"120"`. The concrete mappings hold:
`"240" ↦ "120"`, `"120" ↦ "120"`, `"15M" ↦ "15"`, `"2H" ↦ "120"`. -/
theorem normalizeRes_idem_amended :
    (∀ x r : List Char, normalizeRes x = some r → r ≠ ['2', '4', '0'] →
      normalizeRes r = some r)
    ∧ (∀ x : List Char, normalizeRes x = some ['2', '4', '0'] →
        (normalizeRes x).bind normalizeRes = some ['1', '2', '0'])
    ∧ normalizeRes ['2', '4', '0'] = some ['1', '2', '0']
    ∧ normalizeRes ['1', '2', '0'] = some ['1', '2', '0']
    ∧ normalizeRes ['1', '5', 'M'] = some ['1', '5']
    ∧ normalizeRes ['2', 'H'] = some ['1', '2', '0'] := by
  refine ⟨fun x r h h240 => normalizeRes_idem_of_ne240 h h240, ?_, by decide,
    by decide, by decide, by decide⟩
  intro x h
  rw [h]
  decide

/-- Witness for `normalizeRes_idem_amended`: a concrete run of the
idempotence part at the accepted input `"15M"`. -/
theorem normalizeRes_idem_amended_witness :
    normalizeRes ['1', '5', 'M'] = some ['1', '5']
    ∧ normalizeRes ['1', '5'] = some ['1', '5'] :=
  ⟨by decide,
    normalizeRes_idem_amended.1 ['1', '5', 'M'] ['1', '5'] (by decide) (by decide)⟩

/-! ## RateLimiter (`tradingService.js` lines 26–52).

`wait()` refills, then either consumes one token or sleeps and retries; the
model replaces the real-time sleep loop by an explicit list of clock values
(milliseconds), one per loop iteration, with `none` when the list runs out
before a token is available. -/

/-- Token-bucket state of `RateLimiter`. -/
structure RateLimiter where
  maxTokens : ℚ
  tokens : ℚ
  last : ℚ
  rate : ℚ
  deriving DecidableEq, Repr

/-- The constructor `new RateLimiter(maxPerMin)`: full bucket, rate
`maxPerMin / 60` tokens per second. -/
def mkRateLimiter (maxPerMin : ℚ) (now : ℚ) : RateLimiter :=
  { maxTokens := maxPerMin, tokens := maxPerMin, last := now, rate := maxPerMin / 60 }

/-- `_refill()`: add elapsed-time tokens, capped at the maximum; a non-positive
increment leaves the state unchanged. -/
def rlRefill (now : ℚ) (s : RateLimiter) : RateLimiter :=
  let add := (now - s.last) / 1000 * s.rate
  if 0 < add then { s with tokens := min s.maxTokens (s.tokens + add), last := now }
  else s

/-- The `wait()` loop: refill, recurse while fewer than one token is
available, otherwise consume one token. -/
def rlWait (times : List ℚ) (s : RateLimiter) : Option RateLimiter :=
  match times with
  | [] => none
  | t :: rest =>
    let s2 := rlRefill t s
    if s2.tokens < 1 then rlWait rest s2
    else some { s2 with tokens := s2.tokens - 1 }

/-- The token-count invariant of the limiter. -/
def rlInv (s : RateLimiter) : Prop := 0 ≤ s.tokens ∧ s.tokens ≤ s.maxTokens

theorem rlRefill_inv (now : ℚ) (s : RateLimiter) (h : rlInv s) :
    rlInv (rlRefill now s) := by
  obtain ⟨h0, h1⟩ := h
  unfold rlRefill
  dsimp only
  split
  · rename_i hadd
    constructor
    · exact le_min (le_trans h0 h1) (add_nonneg h0 (le_of_lt hadd))
    · exact min_le_left _ _
  · exact ⟨h0, h1⟩

theorem rlWait_inv (times : List ℚ) (s s2 : RateLimiter) (h : rlInv s)
    (hw : rlWait times s = some s2) : rlInv s2 := by
  induction times generalizing s with
  | nil => exact absurd hw (by simp [rlWait])
  | cons t rest ih =>
    unfold rlWait at hw
    dsimp only at hw
    split at hw
    · exact ih _ (rlRefill_inv t s h) hw
    · rename_i hge
      injection hw with hw
      subst hw
      obtain ⟨g0, g1⟩ := rlRefill_inv t s h
      push_neg at hge
      unfold rlInv
      dsimp only
      constructor <;> linarith

/-- C10: the rate limiter keeps `0 ≤ tokens ≤ maxPerMinute` across every
`_refill` and every successful `wait`, starting from the constructor state;
`wait` consumes a token only when at least one full token is available, so
the count never becomes negative, and refilling never exceeds the cap. -/
theorem rateLimiter_invariant :
    (∀ (now : ℚ) (s : RateLimiter), rlInv s → rlInv (rlRefill now s))
    ∧ (∀ (times : List ℚ) (s s2 : RateLimiter), rlInv s →
        rlWait times s = some s2 → rlInv s2)
    ∧ (∀ maxPerMin now : ℚ, 0 ≤ maxPerMin → rlInv (mkRateLimiter maxPerMin now)) :=
  ⟨rlRefill_inv, rlWait_inv, fun m _ hm => ⟨hm, le_refl m⟩⟩

/-- Witness for `rateLimiter_invariant`: the constructor state for
`maxPerMin = 8` satisfies the invariant, and it is preserved by a refill at
clock 500 ms. -/
theorem rateLimiter_invariant_witness :
    rlInv (rlRefill 500 (mkRateLimiter 8 0)) :=
  rateLimiter_invariant.1 500 (mkRateLimiter 8 0)
    (rateLimiter_invariant.2.2 8 0 (by norm_num))

/-! ## Look-back caps and the `_fetch` recursion
(`tradingService.js` lines 19–24 and 94–194).

`_fetch` is modelled with the broker as an oracle from request windows to
responses (`none` = thrown/malformed response, `some cs` = a successful
response). Windows are epoch seconds; the date-string branch of the code
computes the backward shift in whole days (`moment.diff(..., 'days')`),
modelled as `fdiv (to - from) 86400` days converted back to seconds. The
returned pair carries the result together with the list of issued request
windows, so that attempt counts and window bounds can be stated. -/

/-- `maxDaysFor(resMin)`: intraday look-back caps in calendar days. -/
def maxDaysFor (resMin : ℤ) : ℤ :=
  if resMin ≤ 15 then 30
  else if resMin ≤ 60 then 180
  else if resMin ≤ 120 then 180
  else 365

/-- The `_fetch(params, sym, resStr, want, retry)` recursion. On error:
back off and retry the same window with `retry + 1`. On success with enough
candles, or a non-intraday resolution: stop. Otherwise expand the window
backward by `span * (retry + 1)`, clamped at `earliest`; at `retry > 3`
give up. -/
def fetchGo (broker : ℤ → ℤ → Option (List Candle)) (isIntra : Bool)
    (earliest frm toTs : ℤ) (want : ℕ) (retry : ℕ) :
    (Bool × List Candle) × List (ℤ × ℤ) :=
  if 3 < retry then ((false, []), [])
  else
    match broker frm toTs with
    | none =>
      let r := fetchGo broker isIntra earliest frm toTs want (retry + 1)
      (r.1, (frm, toTs) :: r.2)
    | some cs =>
      if want ≤ cs.length ∨ isIntra = false then ((true, cs), [(frm, toTs)])
      else
        let span := Int.fdiv (toTs - frm) 86400
        let newFrom := frm - span * (retry + 1) * 86400
        if newFrom ≤ earliest then ((true, cs), [(frm, toTs)])
        else
          let r := fetchGo broker isIntra earliest newFrom toTs want (retry + 1)
          (r.1, (frm, toTs) :: r.2)
termination_by 4 - retry
decreasing_by all_goals omega

theorem fetchGo_bounds_aux (broker : ℤ → ℤ → Option (List Candle)) (isIntra : Bool)
    (earliest : ℤ) (want : ℕ) :
    ∀ (n retry : ℕ), 4 - retry ≤ n → ∀ frm toTs : ℤ, earliest ≤ frm →
      (fetchGo broker isIntra earliest frm toTs want retry).2.length ≤ 4 - retry
      ∧ ∀ w ∈ (fetchGo broker isIntra earliest frm toTs want retry).2,
          earliest ≤ w.1 := by
  intro n
  induction n with
  | zero =>
    intro retry hn frm toTs hfrm
    have hr : 3 < retry := by omega
    rw [fetchGo, if_pos hr]
    exact ⟨by simp, by simp⟩
  | succ n ih =>
    intro retry hn frm toTs hfrm
    rw [fetchGo]
    split
    · exact ⟨by simp, by simp⟩
    · rename_i hretry
      cases hb : broker frm toTs with
      | none =>
        obtain ⟨ihl, ihw⟩ := ih (retry + 1) (by omega) frm toTs hfrm
        dsimp only
        constructor
        · simp only [List.length_cons]
          omega
        · intro w hw
          rcases List.mem_cons.mp hw with he | hm
          · subst he; exact hfrm
          · exact ihw w hm
      | some cs =>
        dsimp only
        split
        · refine ⟨by simp; omega, ?_⟩
          intro w hw
          rcases List.mem_cons.mp hw with he | hm
          · subst he; exact hfrm
          · simp at hm
        · split
          · refine ⟨by simp; omega, ?_⟩
            intro w hw
            rcases List.mem_cons.mp hw with he | hm
            · subst he; exact hfrm
            · simp at hm
          · rename_i hclamp
            push_neg at hclamp
            obtain ⟨ihl, ihw⟩ :=
              ih (retry + 1) (by omega)
                (frm - Int.fdiv (toTs - frm) 86400 * (retry + 1) * 86400)
                toTs (le_of_lt hclamp)
            dsimp only
            constructor
            · simp only [List.length_cons]
              omega
            · intro w hw
              rcases List.mem_cons.mp hw with he | hm
              · subst he; exact hfrm
              · exact ihw w hm

/-- C6: against any broker (in particular one that always returns fewer
candles than requested), `_fetch` starting at retry 0 issues at most 4
broker requests (retry counter 0 through 3), and — provided the initial
window already respects the cap, as the windows built by
`getHistoricalData` do — no issued request window has a `range_from`
earlier than `now - maxLookbackDays` for the resolution, where the cap is
30 days for `m ≤ 15`, 180 days for `m ≤ 120` and 365 days otherwise. -/
theorem fetch_attempts_and_window_bounds (broker : ℤ → ℤ → Option (List Candle))
    (nowTs frm toTs m : ℤ) (want : ℕ)
    (hunder : ∀ a b cs, broker a b = some cs → cs.length < want)
    (hfrm : nowTs - maxDaysFor m * 86400 ≤ frm) :
    (fetchGo broker true (nowTs - maxDaysFor m * 86400) frm toTs want 0).2.length ≤ 4
    ∧ (∀ w ∈ (fetchGo broker true (nowTs - maxDaysFor m * 86400) frm toTs want 0).2,
        nowTs - maxDaysFor m * 86400 ≤ w.1)
    ∧ (m ≤ 15 → maxDaysFor m = 30)
    ∧ (15 < m → m ≤ 120 → maxDaysFor m = 180)
    ∧ (120 < m → maxDaysFor m = 365) := by
  obtain ⟨h1, h2⟩ := fetchGo_bounds_aux broker true (nowTs - maxDaysFor m * 86400)
    want 4 0 (by omega) frm toTs hfrm
  refine ⟨by simpa using h1, h2, ?_, ?_, ?_⟩
  · intro h
    simp only [maxDaysFor]
    split_ifs <;> omega
  · intro h1 h2
    simp only [maxDaysFor]
    split_ifs <;> omega
  · intro h
    simp only [maxDaysFor]
    split_ifs <;> omega

/-- Witness for `fetch_attempts_and_window_bounds`: a broker that always
returns the empty candle list (fewer than the requested 200), resolution 60,
a one-day initial window ending at a fixed `now`. -/
theorem fetch_attempts_and_window_bounds_witness :
    (fetchGo (fun _ _ => some []) true ((1700000000 : ℤ) - maxDaysFor 60 * 86400)
      (1700000000 - 86400) 1700000000 200 0).2.length ≤ 4 :=
  (fetch_attempts_and_window_bounds (fun _ _ => some []) 1700000000
    (1700000000 - 86400) 1700000000 60 200
    (fun a b cs h => by
      injection h with h2
      rw [← h2]
      decide)
    (by decide)).1

/-! ## CandleDB (`candleDB.js`): SQLite partition model.

One `(symbol, resolution)` partition of the `candles` table is modelled as an
insertion-ordered list of rows. `ORDER BY timestamp` on the TEXT column is
the lexicographic byte order on the formatted timestamp strings. -/

/-- Lexicographic byte order on strings (SQLite BINARY collation), as a
boolean relation on `List Char`. -/
def lexLeB : List Char → List Char → Bool
  | [], _ => true
  | _ :: _, [] => false
  | a :: as, b :: bs => if a < b then true else if b < a then false else lexLeB as bs

theorem lexLeB_refl (l : List Char) : lexLeB l l = true := by
  induction l with
  | nil => rfl
  | cons a as ih => simp [lexLeB, ih]

theorem lexLeB_total (a b : List Char) : lexLeB a b = true ∨ lexLeB b a = true := by
  induction a generalizing b with
  | nil => left; rfl
  | cons x as ih =>
    cases b with
    | nil => right; rfl
    | cons y bs =>
      rcases lt_trichotomy x y with hxy | hxy | hxy
      · left; simp [lexLeB, hxy]
      · subst hxy
        rcases ih bs with h | h
        · left; simp [lexLeB, h, lt_irrefl]
        · right; simp [lexLeB, h, lt_irrefl]
      · right; simp [lexLeB, hxy]

theorem lexLeB_trans {a b c : List Char} (hab : lexLeB a b = true)
    (hbc : lexLeB b c = true) : lexLeB a c = true := by
  induction a generalizing b c with
  | nil => rfl
  | cons x as ih =>
    cases b with
    | nil => exact absurd hab (by simp [lexLeB])
    | cons y bs =>
      cases c with
      | nil => exact absurd hbc (by simp [lexLeB])
      | cons z cs =>
        simp only [lexLeB] at hab hbc ⊢
        rcases lt_trichotomy x y with hxy | hxy | hxy
        · rcases lt_trichotomy y z with hyz | hyz | hyz
          · simp [lt_trans hxy hyz]
          · subst hyz; simp [hxy]
          · rw [if_neg (lt_asymm hyz), if_pos hyz] at hbc
            exact absurd hbc (by simp)
        · subst hxy
          rcases lt_trichotomy x z with hyz | hyz | hyz
          · simp [hyz]
          · subst hyz
            rw [if_neg (lt_irrefl x), if_neg (lt_irrefl x)] at hab hbc ⊢
            exact ih hab hbc
          · rw [if_neg (lt_asymm hyz), if_pos hyz] at hbc
            exact absurd hbc (by simp)
        · rw [if_neg (lt_asymm hxy), if_pos hxy] at hab
          exact absurd hab (by simp)

/-- `candleDB.normalizeResolution`: uppercase + trim, strip a `\d+M` suffix,
convert `\d+H` to minutes, map `"1D"` to `"D"`; unlike the strategy
normaliser there is no `"240"→"120"` rule and no validity check. -/
def normResDB (l : List Char) : List Char :=
  let r0 := trimC (l.map upChar)
  let r1 := if numSuffix 'M' r0 then r0.dropLast else r0
  let r2 := if numSuffix 'H' r1 then natDigits (digitsVal r1.dropLast * 60) else r1
  if r2 = ['1', 'D'] then ['D'] else r2

/-- Left-pad a digit string with zeros to the given width. -/
def padZeros (width : ℕ) (l : List Char) : List Char :=
  List.replicate (width - l.length) '0' ++ l

/-- Two-digit zero-padded decimal string of a non-negative integer. -/
def pad2 (n : ℤ) : List Char := padZeros 2 (natDigits n.toNat)

/-- Four-digit zero-padded decimal string of a non-negative integer. -/
def pad4 (n : ℤ) : List Char := padZeros 4 (natDigits n.toNat)

/-- `moment.unix(ts).format('YYYY-MM-DD')` in the UTC model. -/
def fmtDate (ts : ℤ) : List Char :=
  let cd := civilFromDays (dayOfTs ts)
  pad4 cd.1 ++ ['-'] ++ pad2 cd.2.1 ++ ['-'] ++ pad2 cd.2.2

/-- `moment.unix(ts).format('HH:mm')` in the UTC model. -/
def fmtHM (ts : ℤ) : List Char :=
  let rem := Int.fmod ts 86400
  pad2 (Int.fdiv rem 3600) ++ [':'] ++ pad2 (Int.fmod (Int.fdiv rem 60) 60)

/-- `moment.unix(ts).format('HH')` in the UTC model. -/
def fmtHH (ts : ℤ) : List Char := pad2 (Int.fdiv (Int.fmod ts 86400) 3600)

/-- JS `parseInt` on a resolution token: the leading digit run, `none` for
`NaN` (no leading digits); `NaN` comparisons are false. -/
def parseIntHead (l : List Char) : Option ℕ :=
  let ds := l.takeWhile isDigitC
  if ds.isEmpty then none else some (digitsVal ds)

/-- The `formattedTimestamp` computed by `storeCandles` (and by `cacheSMA`)
for one candle under a normalised resolution: date only for D/W/M,
`date_HH:mm` below 60 minutes, `date_HHh` below 1440 minutes, `date_res`
otherwise. -/
def fmtTimestamp (res : List Char) (ts : ℤ) : List Char :=
  if res = ['D'] ∨ res = ['W'] ∨ res = ['M'] then fmtDate ts
  else
    match parseIntHead res with
    | some n =>
      if n < 60 then fmtDate ts ++ ['_'] ++ fmtHM ts
      else if n < 1440 then fmtDate ts ++ ['_'] ++ fmtHH ts ++ ['h']
      else fmtDate ts ++ ['_'] ++ res
    | none => fmtDate ts ++ ['_'] ++ res

/-- One row of the `candles` table (within one `(symbol, resolution)`
partition): formatted TEXT timestamp (the primary-key component),
`unix_timestamp`, OHLCV, and the three nullable SMA columns. -/
structure Row where
  ts : List Char
  ut : ℤ
  o : ℚ
  h : ℚ
  l : ℚ
  c : ℚ
  v : ℚ
  s20 : Option ℚ
  s50 : Option ℚ
  s200 : Option ℚ
  deriving DecidableEq, Repr

/-- Erase the derived SMA columns of a row. -/
def clearSMA (r : Row) : Row := { r with s20 := none, s50 := none, s200 := none }

/-- Set the three SMA columns of a row. -/
def setSMA (r : Row) (s : Option ℚ × Option ℚ × Option ℚ) : Row :=
  { r with s20 := s.1, s50 := s.2.1, s200 := s.2.2 }

/-- The row built by `storeCandles` for one candle: SMA columns `null`. -/
def toRow (res : List Char) (c : Candle) : Row :=
  { ts := fmtTimestamp res c.t, ut := c.t, o := c.o, h := c.h, l := c.l,
    c := c.c, v := c.v, s20 := none, s50 := none, s200 := none }

/-- `INSERT OR REPLACE` into a partition, keyed by the formatted timestamp:
replace in place on key collision, append otherwise. -/
def upsertRow (tbl : List Row) (r : Row) : List Row :=
  if tbl.any (fun q => q.ts = r.ts) then
    tbl.map (fun q => if q.ts = r.ts then r else q)
  else
    tbl ++ [r]

/-- The insert transaction of `storeCandles`: upsert the rows in order. -/
def insertRows (tbl : List Row) (rs : List Row) : List Row := rs.foldl upsertRow tbl

/-- Sliding-buffer push of `_recalcSMA`:
`buf.push(close); if (buf.length > n) buf.shift()`. -/
def pushBuf (n : ℕ) (buf : List ℚ) (x : ℚ) : List ℚ :=
  let b := buf ++ [x]
  if n < b.length then b.drop 1 else b

/-- Average of a list (`arr.reduce((s,x) => s+x, 0) / arr.length`). -/
def avgL (l : List ℚ) : ℚ := l.sum / l.length

/-- One step of the `_recalcSMA` sweep: push the close into the three
buffers and record the SMA triple for this row's timestamp (a value is
written exactly when the buffer holds its full window). -/
def recalcStep (st : (List ℚ × List ℚ × List ℚ) × List (List Char × (Option ℚ × Option ℚ × Option ℚ)))
    (p : List Char × ℚ) :
    (List ℚ × List ℚ × List ℚ) × List (List Char × (Option ℚ × Option ℚ × Option ℚ)) :=
  let b20 := pushBuf 20 st.1.1 p.2
  let b50 := pushBuf 50 st.1.2.1 p.2
  let b200 := pushBuf 200 st.1.2.2 p.2
  ((b20, b50, b200),
    st.2 ++ [(p.1, (if b20.length = 20 then some (avgL b20) else none,
                    if b50.length = 50 then some (avgL b50) else none,
                    if b200.length = 200 then some (avgL b200) else none))])

/-- The full `_recalcSMA` sweep over `(timestamp, close)` pairs in ascending
TEXT-timestamp order, producing the per-timestamp SMA triples. -/
def recalcPass (rows : List (List Char × ℚ)) :
    List (List Char × (Option ℚ × Option ℚ × Option ℚ)) :=
  (rows.foldl recalcStep (([], [], []), [])).2

/-- Ascending TEXT order on `(timestamp, close)` pairs
(`ORDER BY timestamp ASC`). -/
def pairTsLe (a b : List Char × ℚ) : Prop := lexLeB a.1 b.1 = true

instance : DecidableRel pairTsLe := fun a b => inferInstanceAs (Decidable (_ = true))

/-- Look up the SMA triple recorded for a timestamp. -/
def lookupSMA (pass : List (List Char × (Option ℚ × Option ℚ × Option ℚ)))
    (ts : List Char) : Option (Option ℚ × Option ℚ × Option ℚ) :=
  (pass.find? (fun e => e.1 = ts)).map (fun e => e.2)

/-- `_recalcSMA`: read `(timestamp, close)` of the partition in ascending
TEXT-timestamp order, sweep the sliding windows, and update every row's SMA
columns by timestamp key. -/
def recalcSMA (tbl : List Row) : List Row :=
  let pass := recalcPass (List.insertionSort pairTsLe (tbl.map (fun r => (r.ts, r.c))))
  tbl.map (fun r =>
    match lookupSMA pass r.ts with
    | some s => setSMA r s
    | none => r)

/-- `storeCandles` on one partition: no-op on an empty candle array,
otherwise upsert the rows (SMA columns `null`) in a transaction and then
recalculate the partition's SMA columns.  The resolution is normalised by
`normalizeResolution` before use. -/
def storeCandlesP (resRaw : List Char) (tbl : List Row) (cs : List Candle) : List Row :=
  let res := normResDB resRaw
  if cs.isEmpty then tbl
  else recalcSMA (insertRows tbl (cs.map (toRow res)))

/-- Ascending order on rows by `unix_timestamp` (`ORDER BY unix_timestamp ASC`). -/
def rowUtLe (a b : Row) : Prop := a.ut ≤ b.ut

instance : DecidableRel rowUtLe := fun a b => inferInstanceAs (Decidable (a.ut ≤ b.ut))

/-- `getCandles` on one partition: rows with `unix_timestamp BETWEEN from AND
to`, ascending by `unix_timestamp`, projected back to candles. -/
def getCandlesP (tbl : List Row) (frm toTs : ℤ) : List Candle :=
  (List.insertionSort rowUtLe
      (tbl.filter (fun r => decide (frm ≤ r.ut) && decide (r.ut ≤ toTs)))).map
    (fun r => { t := r.ut, o := r.o, h := r.h, l := r.l, c := r.c, v := r.v })

/-- The observable SMA columns of a partition, keyed by timestamp. -/
def smaColumns (tbl : List Row) : List (List Char × Option ℚ × Option ℚ × Option ℚ) :=
  tbl.map (fun r => (r.ts, r.s20, r.s50, r.s200))

/-! ### Idempotence of `storeCandles` (C4) -/

theorem clearSMA_setSMA (r : Row) (s : Option ℚ × Option ℚ × Option ℚ) :
    clearSMA (setSMA r s) = clearSMA r := rfl

theorem ts_setSMA (r : Row) (s : Option ℚ × Option ℚ × Option ℚ) :
    (setSMA r s).ts = r.ts := rfl

theorem setSMA_congr {a b : Row} (h : clearSMA a = clearSMA b)
    (s : Option ℚ × Option ℚ × Option ℚ) : setSMA a s = setSMA b s := by
  cases a
  cases b
  injection h
  simp_all [setSMA]

theorem tsC_clearSMA (r : Row) : ((clearSMA r).ts, (clearSMA r).c) = (r.ts, r.c) := rfl

theorem map_tsC_of_clear {x y : List Row} (h : x.map clearSMA = y.map clearSMA) :
    x.map (fun r => (r.ts, r.c)) = y.map (fun r => (r.ts, r.c)) := by
  have hx : x.map (fun r => (r.ts, r.c)) = (x.map clearSMA).map (fun r => (r.ts, r.c)) := by
    rw [List.map_map]
    rfl
  have hy : y.map (fun r => (r.ts, r.c)) = (y.map clearSMA).map (fun r => (r.ts, r.c)) := by
    rw [List.map_map]
    rfl
  rw [hx, hy, h]

theorem recalcPass_keys (rows : List (List Char × ℚ)) :
    (recalcPass rows).map (fun e => e.1) = rows.map (fun e => e.1) := by
  have h : ∀ (st : (List ℚ × List ℚ × List ℚ) ×
      List (List Char × (Option ℚ × Option ℚ × Option ℚ))),
      ((rows.foldl recalcStep st).2).map (fun e => e.1)
        = (st.2).map (fun e => e.1) ++ rows.map (fun e => e.1) := by
    induction rows with
    | nil => intro st; simp
    | cons p rows ih =>
      intro st
      rw [List.foldl_cons, ih]
      simp [recalcStep]
  have h0 := h (([], [], []), [])
  simpa [recalcPass] using h0

theorem lookupSMA_isSome_of_mem {pass : List (List Char × (Option ℚ × Option ℚ × Option ℚ))}
    {ts : List Char} (h : ts ∈ pass.map (fun e => e.1)) :
    (lookupSMA pass ts).isSome = true := by
  obtain ⟨e, he, hts⟩ := List.mem_map.mp h
  unfold lookupSMA
  cases hf : List.find? (fun e => decide (e.1 = ts)) pass with
  | some val => simp
  | none =>
    exfalso
    have hne := List.find?_eq_none.mp hf e he
    simp [hts] at hne

theorem recalcSMA_clear (z : List Row) :
    (recalcSMA z).map clearSMA = z.map clearSMA := by
  unfold recalcSMA
  rw [List.map_map]
  apply List.map_congr_left
  intro r _
  dsimp only [Function.comp_apply]
  cases lookupSMA (recalcPass (List.insertionSort pairTsLe (z.map fun r => (r.ts, r.c)))) r.ts with
  | none => rfl
  | some s => exact clearSMA_setSMA r s

theorem map_applySMA_congr (pass : List (List Char × (Option ℚ × Option ℚ × Option ℚ))) :
    ∀ (x y : List Row), x.map clearSMA = y.map clearSMA →
      (∀ a ∈ x, (lookupSMA pass a.ts).isSome = true) →
      x.map (fun r => match lookupSMA pass r.ts with | some s => setSMA r s | none => r)
        = y.map (fun r => match lookupSMA pass r.ts with | some s => setSMA r s | none => r) := by
  intro x
  induction x with
  | nil =>
    intro y h _
    cases y with
    | nil => rfl
    | cons b ys => exact absurd h (by simp)
  | cons a xs ih =>
    intro y h hmem
    cases y with
    | nil => exact absurd h (by simp)
    | cons b ys =>
      simp only [List.map_cons, List.cons.injEq] at h
      obtain ⟨hab, hxy⟩ := h
      simp only [List.map_cons, List.cons.injEq]
      refine ⟨?_, ih ys hxy (fun q hq => hmem q (List.mem_cons_of_mem _ hq))⟩
      have hts : a.ts = b.ts := congrArg (fun r => r.ts) hab
      rw [← hts]
      cases hl : lookupSMA pass a.ts with
      | none =>
        have hm := hmem a (List.mem_cons_self a xs)
        rw [hl] at hm
        exact absurd hm (by simp)
      | some s => exact setSMA_congr hab s

theorem recalcSMA_congr {x y : List Row} (h : x.map clearSMA = y.map clearSMA) :
    recalcSMA x = recalcSMA y := by
  have hp : x.map (fun r => (r.ts, r.c)) = y.map (fun r => (r.ts, r.c)) :=
    map_tsC_of_clear h
  have hmem : ∀ a ∈ x, (lookupSMA (recalcPass
      (List.insertionSort pairTsLe (y.map fun r => (r.ts, r.c)))) a.ts).isSome = true := by
    intro a ha
    apply lookupSMA_isSome_of_mem
    rw [recalcPass_keys]
    have hmm : (a.ts, a.c) ∈ List.insertionSort pairTsLe (y.map fun r => (r.ts, r.c)) := by
      rw [← hp]
      exact (List.perm_insertionSort pairTsLe _).symm.subset
        (List.mem_map.mpr ⟨a, ha, rfl⟩)
    exact List.mem_map.mpr ⟨(a.ts, a.c), hmm, rfl⟩
  simp only [recalcSMA]
  rw [hp]
  exact map_applySMA_congr _ x y h hmem

theorem ts_clearSMA (r : Row) : (clearSMA r).ts = r.ts := rfl

theorem upsertRow_clear (z : List Row) (r : Row) :
    (upsertRow z r).map clearSMA = upsertRow (z.map clearSMA) (clearSMA r) := by
  unfold upsertRow
  rw [anyMapGen]
  have hc : (z.any fun a => decide ((clearSMA a).ts = (clearSMA r).ts))
      = z.any fun q => decide (q.ts = r.ts) := rfl
  rw [hc]
  split
  · rw [List.map_map, List.map_map]
    apply List.map_congr_left
    intro q _
    dsimp only [Function.comp_apply]
    by_cases hq : q.ts = r.ts
    · rw [if_pos hq, if_pos (by simpa [ts_clearSMA] using hq)]
    · rw [if_neg hq, if_neg (by simpa [ts_clearSMA] using hq)]
  · rw [List.map_append]
    rfl

theorem insertRows_clear (z : List Row) (rs : List Row) :
    (insertRows z rs).map clearSMA = insertRows (z.map clearSMA) (rs.map clearSMA) := by
  induction rs generalizing z with
  | nil => rfl
  | cons r rs ih =>
    unfold insertRows at ih ⊢
    rw [List.foldl_cons, List.map_cons, List.foldl_cons, ih, upsertRow_clear]

/-- The membership test `tbl.any (q => q.ts = t)`. -/
def tsMem (t : List Char) (tbl : List Row) : Bool := tbl.any (fun q => q.ts = t)

theorem tsMem_upsert_self (z : List Row) (r : Row) :
    tsMem r.ts (upsertRow z r) = true := by
  unfold tsMem upsertRow
  split
  · rename_i hany
    rw [List.any_eq_true] at hany ⊢
    obtain ⟨q, hq, hts⟩ := hany
    exact ⟨r, List.mem_map.mpr ⟨q, hq, by rw [if_pos (by simpa using hts)]⟩, by simp⟩
  · rw [List.any_eq_true]
    exact ⟨r, List.mem_append.mpr (Or.inr (by simp)), by simp⟩

theorem tsMem_upsert_mono {t : List Char} {z : List Row} (r : Row)
    (h : tsMem t z = true) : tsMem t (upsertRow z r) = true := by
  unfold tsMem at h ⊢
  unfold upsertRow
  rw [List.any_eq_true] at h
  obtain ⟨q, hq, hts⟩ := h
  split
  · rw [List.any_eq_true]
    by_cases he : q.ts = r.ts
    · refine ⟨r, List.mem_map.mpr ⟨q, hq, by rw [if_pos he]⟩, ?_⟩
      rw [← he]
      exact hts
    · exact ⟨q, List.mem_map.mpr ⟨q, hq, by simp [he]⟩, hts⟩
  · rw [List.any_eq_true]
    exact ⟨q, List.mem_append.mpr (Or.inl hq), hts⟩

theorem tsMem_insertRows_mono {t : List Char} {z : List Row} (rs : List Row)
    (h : tsMem t z = true) : tsMem t (insertRows z rs) = true := by
  induction rs generalizing z with
  | nil => exact h
  | cons r rs ih => exact ih (tsMem_upsert_mono r h)

theorem tsMem_insertRows_of_mem {z : List Row} {rs : List Row} {r : Row}
    (h : r ∈ rs) : tsMem r.ts (insertRows z rs) = true := by
  induction rs generalizing z with
  | nil => simp at h
  | cons a rs ih =>
    rcases List.mem_cons.mp h with he | hm
    · subst he
      exact tsMem_insertRows_mono rs (tsMem_upsert_self z r)
    · exact ih hm

/-- Apply the primary-key replacements of a row list to one row: the last
row of `rs` sharing the timestamp wins, otherwise the row is unchanged. -/
def applyRep (rs : List Row) (q : Row) : Row :=
  rs.foldl (fun q r => if q.ts = r.ts then r else q) q

theorem ts_applyRep (rs : List Row) (q : Row) : (applyRep rs q).ts = q.ts := by
  induction rs generalizing q with
  | nil => rfl
  | cons r rs ih =>
    unfold applyRep at ih ⊢
    rw [List.foldl_cons]
    by_cases hq : q.ts = r.ts
    · rw [if_pos hq, ih, hq]
    · rw [if_neg hq, ih]

theorem insertRows_all_present {z : List Row} {rs : List Row}
    (h : ∀ r ∈ rs, tsMem r.ts z = true) :
    insertRows z rs = z.map (applyRep rs) := by
  induction rs generalizing z with
  | nil =>
    have ha : applyRep ([] : List Row) = id := funext fun q => rfl
    rw [ha, List.map_id]
    rfl
  | cons r rs ih =>
    have hr : (z.any fun q => decide (q.ts = r.ts)) = true := h r (by simp)
    have hstep : upsertRow z r = z.map (fun q => if q.ts = r.ts then r else q) := by
      unfold upsertRow
      rw [if_pos hr]
    have hkeys : ∀ a ∈ rs, tsMem a.ts (z.map (fun q => if q.ts = r.ts then r else q)) = true := by
      intro a ha
      have hz := h a (by simp [ha])
      unfold tsMem at hz ⊢
      rw [anyMapGen]
      rw [List.any_eq_true] at hz ⊢
      obtain ⟨q, hq, hts⟩ := hz
      refine ⟨q, hq, ?_⟩
      by_cases he : q.ts = r.ts
      · simp only [if_pos he]
        simp at hts ⊢
        rw [← he]
        exact hts
      · simp only [if_neg he]
        exact hts
    unfold insertRows at ih ⊢
    rw [List.foldl_cons, hstep, ih hkeys, List.map_map]
    apply List.map_congr_left
    intro q _
    rfl

theorem mem_upsertRow {z : List Row} {r q : Row} (h : q ∈ upsertRow z r) :
    q = r ∨ (q ∈ z ∧ q.ts ≠ r.ts) := by
  unfold upsertRow at h
  split at h
  · obtain ⟨p, hp, hq⟩ := List.mem_map.mp h
    by_cases he : p.ts = r.ts
    · rw [if_pos he] at hq
      exact Or.inl hq.symm
    · rw [if_neg he] at hq
      exact Or.inr ⟨hq ▸ hp, hq ▸ he⟩
  · rename_i hany
    rcases List.mem_append.mp h with hm | hm
    · refine Or.inr ⟨hm, ?_⟩
      intro he
      have : z.any (fun q => q.ts = r.ts) = true := List.any_eq_true.mpr ⟨q, hm, by simp [he]⟩
      exact hany this
    · exact Or.inl (by simpa using hm)

theorem applyRep_fixed {z : List Row} {rs : List Row} :
    ∀ q ∈ insertRows z rs, applyRep rs q = q := by
  induction rs using List.reverseRecOn generalizing z with
  | nil => intro q _; rfl
  | append_singleton rs r ih =>
    intro q hq
    unfold insertRows at hq
    rw [List.foldl_append, List.foldl_cons, List.foldl_nil] at hq
    have hsp : applyRep (rs ++ [r]) q = (fun q => if q.ts = r.ts then r else q) (applyRep rs q) := by
      unfold applyRep
      rw [List.foldl_append, List.foldl_cons, List.foldl_nil]
    rcases mem_upsertRow hq with he | ⟨hm, hts⟩
    · subst he
      rw [hsp]
      simp [ts_applyRep]
    · rw [hsp, ih q hm]
      simp [if_neg hts]

theorem insertRows_idem (z : List Row) (rs : List Row) :
    insertRows (insertRows z rs) rs = insertRows z rs := by
  have hkeys : ∀ r ∈ rs, tsMem r.ts (insertRows z rs) = true :=
    fun r hr => tsMem_insertRows_of_mem hr
  rw [insertRows_all_present hkeys]
  have hfix : (insertRows z rs).map (applyRep rs) = (insertRows z rs).map id :=
    List.map_congr_left fun q hq => applyRep_fixed q hq
  rw [hfix, List.map_id]

theorem storeCandlesP_state_idem (resRaw : List Char) (tbl : List Row) (cs : List Candle) :
    storeCandlesP resRaw (storeCandlesP resRaw tbl cs) cs = storeCandlesP resRaw tbl cs := by
  unfold storeCandlesP
  by_cases hcs : cs.isEmpty
  · simp [hcs]
  · simp only [hcs, Bool.false_eq_true, if_false]
    apply recalcSMA_congr
    calc (insertRows (recalcSMA (insertRows tbl (cs.map (toRow (normResDB resRaw)))))
          (cs.map (toRow (normResDB resRaw)))).map clearSMA
      = insertRows ((recalcSMA (insertRows tbl (cs.map (toRow (normResDB resRaw))))).map clearSMA)
          ((cs.map (toRow (normResDB resRaw))).map clearSMA) := insertRows_clear _ _
    _ = insertRows ((insertRows tbl (cs.map (toRow (normResDB resRaw)))).map clearSMA)
          ((cs.map (toRow (normResDB resRaw))).map clearSMA) := by rw [recalcSMA_clear]
    _ = insertRows (insertRows (tbl.map clearSMA) ((cs.map (toRow (normResDB resRaw))).map clearSMA))
          ((cs.map (toRow (normResDB resRaw))).map clearSMA) := by rw [insertRows_clear]
    _ = insertRows (tbl.map clearSMA) ((cs.map (toRow (normResDB resRaw))).map clearSMA) :=
          insertRows_idem _ _
    _ = (insertRows tbl (cs.map (toRow (normResDB resRaw)))).map clearSMA :=
          (insertRows_clear _ _).symm

theorem keys_upsert_nodup {z : List Row} {r : Row} (h : (z.map Row.ts).Nodup) :
    ((upsertRow z r).map Row.ts).Nodup := by
  unfold upsertRow
  split
  · rw [List.map_map]
    have he : z.map (Row.ts ∘ fun q => if q.ts = r.ts then r else q) = z.map Row.ts := by
      apply List.map_congr_left
      intro q _
      dsimp only [Function.comp_apply]
      by_cases hq : q.ts = r.ts
      · rw [if_pos hq, hq]
      · rw [if_neg hq]
    rw [he]
    exact h
  · rename_i hany
    rw [List.map_append]
    rw [List.nodup_append]
    refine ⟨h, by simp, ?_⟩
    intro t ht
    simp only [List.map_cons, List.map_nil, List.mem_singleton]
    intro he
    subst he
    obtain ⟨q, hq, hts⟩ := List.mem_map.mp ht
    exact hany (List.any_eq_true.mpr ⟨q, hq, by simp [hts]⟩)

theorem keys_insertRows_nodup {z : List Row} (rs : List Row)
    (h : (z.map Row.ts).Nodup) : ((insertRows z rs).map Row.ts).Nodup := by
  induction rs generalizing z with
  | nil => exact h
  | cons r rs ih => exact ih (keys_upsert_nodup h)

theorem keys_recalcSMA (z : List Row) : (recalcSMA z).map Row.ts = z.map Row.ts := by
  unfold recalcSMA
  rw [List.map_map]
  apply List.map_congr_left
  intro r _
  dsimp only [Function.comp_apply]
  cases lookupSMA (recalcPass (List.insertionSort pairTsLe (z.map fun r => (r.ts, r.c)))) r.ts with
  | none => rfl
  | some s => rfl

/-- C4: `storeCandles` is idempotent on every partition state, resolution and
candle array — running it twice leaves the partition in exactly the state of
one run, so `getCandles` returns identical rows and the derived SMA columns
are identical; and when the partition's primary keys were duplicate-free they
remain so (no duplicate rows are created). -/
theorem storeCandles_idempotent (resRaw : List Char) (tbl : List Row)
    (cs : List Candle) (frm toTs : ℤ) :
    storeCandlesP resRaw (storeCandlesP resRaw tbl cs) cs = storeCandlesP resRaw tbl cs
    ∧ getCandlesP (storeCandlesP resRaw (storeCandlesP resRaw tbl cs) cs) frm toTs
        = getCandlesP (storeCandlesP resRaw tbl cs) frm toTs
    ∧ smaColumns (storeCandlesP resRaw (storeCandlesP resRaw tbl cs) cs)
        = smaColumns (storeCandlesP resRaw tbl cs)
    ∧ ((tbl.map Row.ts).Nodup → ((storeCandlesP resRaw tbl cs).map Row.ts).Nodup) := by
  have hs := storeCandlesP_state_idem resRaw tbl cs
  refine ⟨hs, by rw [hs], by rw [hs], ?_⟩
  intro hn
  unfold storeCandlesP
  by_cases hcs : cs.isEmpty
  · simpa [hcs] using hn
  · simp only [hcs, Bool.false_eq_true, if_false]
    rw [keys_recalcSMA]
    exact keys_insertRows_nodup _ hn

/-- Witness for `storeCandles_idempotent`: the duplicate-freedom part at an
initially empty partition with one daily candle. -/
theorem storeCandles_idempotent_witness :
    ((storeCandlesP ['D'] []
        [{ t := 1704672000, o := 1, h := 2, l := 1, c := 2, v := 100 }]).map Row.ts).Nodup :=
  (storeCandles_idempotent ['D'] []
    [{ t := 1704672000, o := 1, h := 2, l := 1, c := 2, v := 100 }] 0 0).2.2.2 (by simp)

/-! ### `getCachedSMA` (C7) -/

/-- The SMA column selected by a period (20, 50 or 200). -/
def colOf (period : ℕ) (r : Row) : Option ℚ :=
  if period = 20 then r.s20 else if period = 50 then r.s50 else r.s200

/-- The `{ value }` object returned by `getCachedSMA`. -/
structure SmaValue where
  value : Option ℚ
  deriving DecidableEq, Repr

/-- Descending TEXT-timestamp order on rows (`ORDER BY timestamp DESC`). -/
def rowTsDesc (a b : Row) : Prop := lexLeB b.ts a.ts = true

instance : DecidableRel rowTsDesc := fun a b => inferInstanceAs (Decidable (_ = true))

instance : IsTotal Row rowTsDesc := ⟨fun a b => lexLeB_total b.ts a.ts⟩

instance : IsTrans Row rowTsDesc := ⟨fun _ _ _ hab hbc => lexLeB_trans hbc hab⟩

/-- `getCachedSMA` on one partition: a period outside {20, 50, 200} logs a
warning and returns `{ value: null }` (a normal result, NOT a thrown error);
otherwise the value of the column at the greatest TEXT timestamp among rows
where that column is non-null, or `{ value: null }` when there is none.
The `Except` return type records that the JS function could only surface an
error by throwing; this model never produces `Except.error`. -/
def getCachedSMA (tbl : List Row) (period : ℕ) : Except (List Char) SmaValue :=
  if period = 20 ∨ period = 50 ∨ period = 200 then
    match (List.insertionSort rowTsDesc
        (tbl.filter (fun r => (colOf period r).isSome))).head? with
    | some r => Except.ok { value := colOf period r }
    | none => Except.ok { value := none }
  else
    Except.ok { value := none }

/-- C7 (counterexample): for a period outside {20, 50, 200} the call is not
rejected — on a partition that does hold cached SMA values, period 10
returns the normal result `{ value: null }`, not an error. -/
theorem getCachedSMA_period10_not_rejected :
    getCachedSMA
      [{ ts := ['2', '0', '2', '4'], ut := 0, o := 1, h := 1, l := 1, c := 1, v := 1,
         s20 := some 105, s50 := some 100, s200 := some 90 }] 10
      = Except.ok { value := none } := rfl

/-- C7 (amended): for period in {20, 50, 200}, `getCachedSMA` returns a
normal result holding the most recent (greatest TEXT timestamp) non-null
stored value of that column, or `{ value: null }` when the column is null
everywhere; for any other period it logs a warning and returns the normal
result `{ value: null }` — a null-valued result, never an error. -/
theorem getCachedSMA_spec :
    (∀ (tbl : List Row) (p : ℕ), p ≠ 20 → p ≠ 50 → p ≠ 200 →
      getCachedSMA tbl p = Except.ok { value := none })
    ∧ (∀ (tbl : List Row) (p : ℕ), p = 20 ∨ p = 50 ∨ p = 200 →
        ∃ res : SmaValue, getCachedSMA tbl p = Except.ok res
          ∧ ((res.value = none ∧ ∀ q ∈ tbl, colOf p q = none)
             ∨ (∃ r ∈ tbl, colOf p r = res.value ∧ (colOf p r).isSome = true
                  ∧ ∀ q ∈ tbl, (colOf p q).isSome = true →
                      lexLeB q.ts r.ts = true))) := by
  constructor
  · intro tbl p h20 h50 h200
    unfold getCachedSMA
    rw [if_neg (by tauto)]
  · intro tbl p hp
    unfold getCachedSMA
    rw [if_pos hp]
    rcases hsort : List.insertionSort rowTsDesc
        (List.filter (fun r => (colOf p r).isSome) tbl) with _ | ⟨a, t⟩
    ·
      refine ⟨{ value := none }, rfl, Or.inl ⟨rfl, ?_⟩⟩
      have hperm : List.Perm (List.filter (fun r => (colOf p r).isSome) tbl) [] :=
        hsort ▸ (List.perm_insertionSort rowTsDesc _).symm
      have hfil := hperm.eq_nil
      intro q hq
      by_contra hne
      have hqs : (colOf p q).isSome = true := Option.ne_none_iff_isSome.mp hne
      have : q ∈ tbl.filter (fun r => (colOf p r).isSome) :=
        List.mem_filter.mpr ⟨hq, hqs⟩
      rw [hfil] at this
      simp at this
    · refine ⟨{ value := colOf p a }, rfl, Or.inr ⟨a, ?_, rfl, ?_, ?_⟩⟩
      · have ha : a ∈ tbl.filter (fun r => (colOf p r).isSome) := by
          have : a ∈ List.insertionSort rowTsDesc
              (tbl.filter (fun r => (colOf p r).isSome)) := by
            rw [hsort]; simp
          exact (List.perm_insertionSort rowTsDesc _).subset this
        exact (List.mem_filter.mp ha).1
      · have ha : a ∈ tbl.filter (fun r => (colOf p r).isSome) := by
          have : a ∈ List.insertionSort rowTsDesc
              (tbl.filter (fun r => (colOf p r).isSome)) := by
            rw [hsort]; simp
          exact (List.perm_insertionSort rowTsDesc _).subset this
        exact (List.mem_filter.mp ha).2
      · intro q hq hqs
        have hqf : q ∈ tbl.filter (fun r => (colOf p r).isSome) :=
          List.mem_filter.mpr ⟨hq, hqs⟩
        have hqs2 : q ∈ List.insertionSort rowTsDesc
            (tbl.filter (fun r => (colOf p r).isSome)) :=
          (List.perm_insertionSort rowTsDesc _).symm.subset hqf
        rw [hsort] at hqs2
        rcases List.mem_cons.mp hqs2 with he | hm
        · subst he
          exact lexLeB_refl _
        · have hsorted : List.Sorted rowTsDesc (a :: t) := by
            rw [← hsort]
            exact List.sorted_insertionSort rowTsDesc _
          exact List.rel_of_sorted_cons hsorted q hm

/-- Witness for `getCachedSMA_spec`: the invalid-period part at period 10 on
a one-row partition, and the valid-period part at period 20. -/
theorem getCachedSMA_spec_witness :
    getCachedSMA
      [{ ts := ['2', '0', '2', '4'], ut := 0, o := 1, h := 1, l := 1, c := 1, v := 1,
         s20 := some 105, s50 := some 100, s200 := some 90 }] 10
      = Except.ok { value := none }
    ∧ ∃ res : SmaValue, getCachedSMA ([] : List Row) 20 = Except.ok res
        ∧ ((res.value = none ∧ ∀ q ∈ ([] : List Row), colOf 20 q = none)
           ∨ (∃ r ∈ ([] : List Row), colOf 20 r = res.value
                ∧ (colOf 20 r).isSome = true
                ∧ ∀ q ∈ ([] : List Row), (colOf 20 q).isSome = true →
                    lexLeB q.ts r.ts = true)) :=
  ⟨getCachedSMA_spec.1 _ 10 (by decide) (by decide) (by decide),
   getCachedSMA_spec.2 [] 20 (Or.inl rfl)⟩

/-! ## Strategy engine (`strategy.js`).

Per-symbol state lives in JS `Map`s, modelled as insertion-ordered
association lists with `Map.set` semantics. Tags such as
`` `${symbol}_D` `` are modelled as `(symbol, suffix)` pairs, and the
`YYYY-MM-DD` freshness markers as day numbers. The broker service
`svc.getHistoricalData` is an oracle parameter giving the candles of a
successful fetch. -/

/-- An SMA snapshot `{sma20, sma50, sma200}` with possibly-null components. -/
structure Sma3 where
  sma20 : Option ℚ
  sma50 : Option ℚ
  sma200 : Option ℚ
  deriving DecidableEq, Repr

/-- JS `>` on numbers-or-null: `null` coerces to 0. -/
def jsGT (a b : Option ℚ) : Bool := decide (a.getD 0 > b.getD 0)

/-- JS truthiness of a number-or-null: `null` and `0` are falsy. -/
def jsTruthy (a : Option ℚ) : Bool :=
  match a with
  | none => false
  | some x => decide (x ≠ 0)

/-- The stack condition `s && s.sma20 > s.sma50 && s.sma50 > s.sma200`:
false when the snapshot is absent. -/
def smaStack (s : Option Sma3) : Bool :=
  match s with
  | none => false
  | some s => jsGT s.sma20 s.sma50 && jsGT s.sma50 s.sma200

/-- The verdict record built by `#analyze` and stored by `#diff`. -/
structure Verdict where
  symbol : String
  bullish : Bool
  rangeOK : Bool
  closeGTopen : Bool
  closeGTyest : Bool
  volYestOK : Bool
  wkBull : Bool
  moBull : Bool
  smaOK : Bool
  s20 : Option ℚ
  s50 : Option ℚ
  s200 : Option ℚ
  ma20GT200 : Bool
  isPriorityCheck : Bool
  deriving DecidableEq, Repr

/-- Kernel-evaluable subtraction on `ℚ` (the built-in `Rat.sub` does not
reduce inside the kernel); `qSub_eq_sub` shows it is ordinary subtraction. -/
def qSub (a b : ℚ) : ℚ := Rat.divInt (a.num * b.den - b.num * a.den) (a.den * b.den)

theorem qSub_eq_sub (a b : ℚ) : qSub a b = a - b := by
  unfold qSub
  rw [Rat.divInt_eq_div]
  have ha : (a.den : ℚ) ≠ 0 := by
    exact_mod_cast a.den_nz
  have hb : (b.den : ℚ) ≠ 0 := by
    exact_mod_cast b.den_nz
  push_cast
  conv_rhs => rw [← Rat.num_div_den a, ← Rat.num_div_den b]
  field_simp
  ring

/-- A placeholder candle for indexing that the length guard makes
unreachable. -/
def dummyCandle : Candle := { t := 0, o := 0, h := 0, l := 0, c := 0, v := 0 }

/-- The pure core of `#analyze` (lines 388–485): `none` models the early
return when the daily window is missing or shorter than 10 candles or the
SMA snapshot is absent. The 60m/120m/daily stack conditions are computed by
the code only for debug output; the bullish conjunction uses the seven core
conditions plus the short-timeframe condition, which defaults to true when
neither the 1m nor the 5m snapshot is loaded. -/
def analyzeVerdict (symbol : String) (daily? : Option (List Candle))
    (smaBuf : Option Sma3) (sma1m sma5m : Option Sma3) (isPriority : Bool) :
    Option Verdict :=
  match daily?, smaBuf with
  | none, _ => none
  | some _, none => none
  | some daily, some buf =>
    if daily.length < 10 then none
    else
      let today := daily.getLastD dummyCandle
      let todayRange := qSub today.h today.l
      let comps := ((List.range 7).map (fun i => i + 1)).filterMap (fun i =>
        if daily.length < i + 1 then none
        else
          let prev := (daily[(daily.length - (1 + i))]?).getD dummyCandle
          some (decide (todayRange > qSub prev.h prev.l)))
      let rangeOK := comps.all id
      let closeGTopen := decide (today.c > today.o)
      let yest := (daily[(daily.length - 2)]?).getD dummyCandle
      let closeGTyest := decide (today.c > yest.c)
      let volYestOK := decide (yest.v > 10000)
      let weekly := rollup RMode.W daily
      let wkBull := !weekly.isEmpty
        && decide ((weekly.getLastD dummyCandle).c > (weekly.getLastD dummyCandle).o)
      let monthly := rollup RMode.M daily
      let moBull := !monthly.isEmpty
        && decide ((monthly.getLastD dummyCandle).c > (monthly.getLastD dummyCandle).o)
      let smaOK := jsGT buf.sma20 buf.sma50 && jsGT buf.sma50 buf.sma200
      let shortFramesValid := sma1m.isSome && sma5m.isSome
      let shortTFBull := if shortFramesValid then smaStack sma1m || smaStack sma5m else true
      let bullish := rangeOK && closeGTopen && closeGTyest && volYestOK
        && wkBull && moBull && smaOK && shortTFBull
      some { symbol := symbol, bullish := bullish, rangeOK := rangeOK,
             closeGTopen := closeGTopen, closeGTyest := closeGTyest,
             volYestOK := volYestOK, wkBull := wkBull, moBull := moBull,
             smaOK := smaOK, s20 := buf.sma20, s50 := buf.sma50,
             s200 := buf.sma200, ma20GT200 := jsGT buf.sma20 buf.sma200,
             isPriorityCheck := isPriority }

/-- Association-list lookup with JS `Map.get` semantics. -/
def lookupA {α : Type} (m : List (String × α)) (k : String) : Option α :=
  (m.find? (fun e => e.1 = k)).map (fun e => e.2)

/-- Association-list update with JS `Map.set` semantics: replace in place,
else append. -/
def setA {α : Type} (m : List (String × α)) (k : String) (v : α) :
    List (String × α) :=
  if m.any (fun e => e.1 = k) then
    m.map (fun e => if e.1 = k then (e.1, v) else e)
  else
    m ++ [(k, v)]

/-- Tagged lookup for the `lastFetch` map, keyed `(symbol, suffix)`. -/
def lookupT (m : List ((String × List Char) × ℤ)) (k : String × List Char) : Option ℤ :=
  (m.find? (fun e => e.1 = k)).map (fun e => e.2)

/-- Tagged update for the `lastFetch` map. -/
def setT (m : List ((String × List Char) × ℤ)) (k : String × List Char) (v : ℤ) :
    List ((String × List Char) × ℤ) :=
  if m.any (fun e => e.1 = k) then
    m.map (fun e => if e.1 = k then (e.1, v) else e)
  else
    m ++ [(k, v)]

/-- The whole `candles` table: one partition per `(symbol, normalised
resolution)`. -/
abbrev CandleDB : Type := List ((String × List Char) × List Row)

/-- The partition of a symbol and (already normalised) resolution. -/
def dbPartition (db : CandleDB) (sym : String) (res : List Char) : List Row :=
  ((db.find? (fun e => e.1 = (sym, res))).map (fun e => e.2)).getD []

/-- Replace a partition. -/
def dbSetPartition (db : CandleDB) (sym : String) (res : List Char)
    (tbl : List Row) : CandleDB :=
  if db.any (fun e => e.1 = (sym, res)) then
    db.map (fun e => if e.1 = (sym, res) then (e.1, tbl) else e)
  else
    db ++ [((sym, res), tbl)]

/-- `candleDB.storeCandles`: normalise the resolution, upsert into the
partition, recalculate its SMA columns. -/
def dbStoreCandles (db : CandleDB) (sym : String) (resRaw : List Char)
    (cs : List Candle) : CandleDB :=
  let nr := normResDB resRaw
  dbSetPartition db sym nr (storeCandlesP resRaw (dbPartition db sym nr) cs)

/-- `candleDB.getCandles`: normalise the resolution, read the partition rows
in the closed `unix_timestamp` interval, ascending. -/
def dbGetCandles (db : CandleDB) (sym : String) (resRaw : List Char)
    (frm toTs : ℤ) : List Candle :=
  getCandlesP (dbPartition db sym (normResDB resRaw)) frm toTs

/-- Descending order on rows by `unix_timestamp`. -/
def rowUtDesc (a b : Row) : Prop := b.ut ≤ a.ut

instance : DecidableRel rowUtDesc := fun a b => inferInstanceAs (Decidable (b.ut ≤ a.ut))

/-- `candleDB.getAllSMA`: for the resolutions with a dedicated view
(1, 5, 60, 120, D) the prepared statement returns the SMA columns of the
latest row (greatest `unix_timestamp`) without a non-null filter, falling
back to the main-table query when the partition is empty; for any other
resolution the main-table query returns the latest row whose three SMA
columns are all non-null. Nulls everywhere when nothing matches. -/
def dbGetAllSMA (db : CandleDB) (sym : String) (resRaw : List Char) : Sma3 :=
  let nr := normResDB resRaw
  let part := dbPartition db sym nr
  let fallback :=
    match (List.insertionSort rowUtDesc
        (part.filter (fun r => r.s20.isSome && r.s50.isSome && r.s200.isSome))).head? with
    | some r => { sma20 := r.s20, sma50 := r.s50, sma200 := r.s200 }
    | none => { sma20 := none, sma50 := none, sma200 := none }
  if nr = ['1'] ∨ nr = ['5'] ∨ nr = ['6', '0'] ∨ nr = ['1', '2', '0'] ∨ nr = ['D'] then
    match (List.insertionSort rowUtDesc part).head? with
    | some r => { sma20 := r.s20, sma50 := r.s50, sma200 := r.s200 }
    | none => fallback
  else fallback

/-- `candleDB.getCachedSMA` at the database level. -/
def dbGetCachedSMA (db : CandleDB) (sym : String) (resRaw : List Char)
    (period : ℕ) : Except (List Char) SmaValue :=
  getCachedSMA (dbPartition db sym (normResDB resRaw)) period

/-- `candleDB._calculateSMA`: sliding-window averages of the closes of the
given candle array. -/
def calculateSMA (cs : List Candle) (period : ℕ) : List ℚ :=
  (List.range (cs.length + 1 - period)).map
    (fun i => avgL (((cs.map (fun c => c.c)).drop i).take period))

/-- Set a single SMA column of a row. -/
def setCol (period : ℕ) (r : Row) (v : ℚ) : Row :=
  if period = 20 then { r with s20 := some v }
  else if period = 50 then { r with s50 := some v }
  else { r with s200 := some v }

/-- The `UPDATE candles SET sma{p} = ? WHERE ... timestamp = ?` statement. -/
def updateCol (period : ℕ) (tbl : List Row) (key : List Char) (v : ℚ) : List Row :=
  tbl.map (fun r => if r.ts = key then setCol period r v else r)

/-- `candleDB.cacheSMA`: no-op for an unsupported period or fewer candles
than the period; otherwise store the candles (which recalculates the
partition sweep) and then overwrite the one column with values computed from
the given array's own order. -/
def dbCacheSMA (db : CandleDB) (sym : String) (resRaw : List Char)
    (period : ℕ) (cs : List Candle) : CandleDB :=
  let nr := normResDB resRaw
  if period = 20 ∨ period = 50 ∨ period = 200 then
    if cs.length < period then db
    else
      let db1 := dbStoreCandles db sym nr cs
      let sv := calculateSMA cs period
      let part := dbPartition db1 sym nr
      let part2 := ((cs.drop (period - 1)).zip sv).foldl
        (fun t pc => updateCol period t (fmtTimestamp nr pc.1.t) pc.2) part
      dbSetPartition db1 sym nr part2
  else db

/-- The strategy engine's in-memory state (the `Map` fields of `Strategy`),
together with the backing `CandleDB`. -/
structure Engine where
  smaRes : List Char
  dailyMap : List (String × List Candle)
  smaMap : List (String × Sma3)
  res1m : List (String × Sma3)
  res5m : List (String × Sma3)
  res60m : List (String × Sma3)
  res120m : List (String × Sma3)
  resD : List (String × Sma3)
  stateMap : List (String × Verdict)
  lastFetch : List ((String × List Char) × ℤ)
  db : CandleDB
  deriving Repr

/-- The broker service `svc.getHistoricalData(symbol, resolution, lookback)`
as an oracle giving the candles of a successful response. -/
def Oracle : Type := String → List Char → ℕ → List Candle

/-- `DD-MM-YYYY` date string (the `entryDate` format). -/
def fmtDMY (ts : ℤ) : List Char :=
  let cd := civilFromDays (dayOfTs ts)
  pad2 cd.2.2 ++ ['-'] ++ pad2 cd.2.1 ++ ['-'] ++ pad4 cd.1

/-- The signal payload built by `#diff` (and `getBullishSignals`); numeric
fields keep their numeric values instead of the `toFixed(2)` strings. -/
structure Trade where
  key : String × List Char
  resolution : List Char
  symbol : String
  exchange : String
  price : ℚ
  change : ℚ
  entryPrice : ℚ
  stopLoss : ℚ
  target : ℚ
  entryTime : List Char
  entryDate : List Char
  isProfit : Bool
  deriving DecidableEq, Repr

/-- Build the `payload.trade` object from the latest and previous daily
candles (`stop = close × 0.95`, `target = close × 1.10`). -/
def mkTrade (smaRes : List Char) (symbol : String) (latest prevC : Candle) : Trade :=
  let parts := symbol.splitOn ":"
  let exch := parts.headD ""
  let codeRaw := parts[1]?
  let stock := match codeRaw with
    | some cr => (cr.splitOn "-").headD cr
    | none => symbol
  let price := latest.c
  let diff := price - prevC.c
  { key := (symbol, smaRes), resolution := smaRes, symbol := stock,
    exchange := if exch = "" then "NSE" else exch,
    price := price, change := diff, entryPrice := price,
    stopLoss := price * (95 / 100), target := price * (110 / 100),
    entryTime := fmtHM latest.t, entryDate := fmtDMY latest.t,
    isProfit := decide (diff ≥ 0) }

/-- The events emitted by `#diff`: a `bullish` signal-open with its payload,
or a `clear` signal carrying just the key. -/
inductive Emission where
  | bullishSig (key : String × List Char) (payload : Trade)
  | clearSig (key : String × List Char)
  deriving DecidableEq, Repr

/-- The JS runtime errors the embedding can surface. -/
inductive JsErr where
  | typeError
  deriving DecidableEq, Repr

/-- `#diff` (lines 541–597): store the new verdict, then emit a signal-open
on a false/absent→true transition of `bullish` (building the payload from
the daily window), a signal-clear on a true→false transition, and nothing
otherwise. Dereferencing the daily window of an unknown symbol or the last
candle of an empty window throws a `TypeError`. -/
def diffEngine (st : Engine) (sym : String) (next : Verdict) :
    Except JsErr (Engine × List Emission) :=
  let prev := lookupA st.stateMap sym
  let st2 := { st with stateMap := setA st.stateMap sym next }
  if next.bullish && !((prev.map (fun v => v.bullish)).getD false) then
    match lookupA st2.dailyMap sym with
    | none => Except.error JsErr.typeError
    | some daily =>
      match daily.getLast? with
      | none => Except.error JsErr.typeError
      | some latest =>
        let prevC := (daily[(daily.length - 2)]?).getD latest
        Except.ok (st2, [Emission.bullishSig (sym, st2.smaRes) (mkTrade st2.smaRes sym latest prevC)])
  else if !next.bullish && ((prev.map (fun v => v.bullish)).getD false) then
    Except.ok (st2, [Emission.clearSig (sym, st2.smaRes)])
  else
    Except.ok (st2, [])

/-- `#analyze` at the engine level: compute the verdict from the in-memory
maps; a missing window or snapshot is a no-op (no state change, no
emission), otherwise diff against the previous verdict. -/
def analyzeEngine (st : Engine) (sym : String) (isPriority : Bool) :
    Except JsErr (Engine × List Emission) :=
  match analyzeVerdict sym (lookupA st.dailyMap sym) (lookupA st.smaMap sym)
      (lookupA st.res1m sym) (lookupA st.res5m sym) isPriority with
  | none => Except.ok (st, [])
  | some v => diffEngine st sym v

/-- `getBearishSignals()` (line 66): unconditionally the empty array. -/
def getBearishSignals (st : Engine) : List Trade := []

/-- `#ensureDaily` (lines 149–164): if today's marker is fresh and the window
is loaded, a no-op; otherwise read a 300-day daily window from the store and,
if it is empty or not up to date for today, replace it by a broker fetch and
persist that. -/
def ensureDaily (o : Oracle) (now : ℤ) (st : Engine) (sym : String) : Engine :=
  let today := dayOfTs now
  if lookupT st.lastFetch (sym, ['D']) = some today ∧ (lookupA st.dailyMap sym).isSome then
    st
  else
    let startTs := now - 300 * 86400
    let candles := dbGetCandles st.db sym ['D'] startTs now
    let fresh := !candles.isEmpty
      && decide (dayOfTs (candles.getLastD dummyCandle).t = today)
    let (candles2, db2) :=
      if fresh then (candles, st.db)
      else
        let api := o sym ['D'] 300
        (api, dbStoreCandles st.db sym ['D'] api)
    { st with
      db := db2
      dailyMap := setA st.dailyMap sym candles2
      lastFetch := setT st.lastFetch (sym, ['D']) today }

/-- The per-timeframe SMA map selected by a resolution token. -/
def getTFMap (st : Engine) (res : List Char) : List (String × Sma3) :=
  if res = ['1'] then st.res1m
  else if res = ['5'] then st.res5m
  else if res = ['6', '0'] then st.res60m
  else if res = ['1', '2', '0'] then st.res120m
  else st.resD

/-- Write back the per-timeframe SMA map selected by a resolution token. -/
def setTFMap (st : Engine) (res : List Char) (m : List (String × Sma3)) : Engine :=
  if res = ['1'] then { st with res1m := m }
  else if res = ['5'] then { st with res5m := m }
  else if res = ['6', '0'] then { st with res60m := m }
  else if res = ['1', '2', '0'] then { st with res120m := m }
  else { st with resD := m }

/-- The timeframes and per-timeframe lookbacks of `#ensureAllTimeframeSMAs`:
1m and 5m use 2000 candles, 60m and 120m use 800, daily uses 365. -/
def tfLookbacks : List (List Char × ℕ) :=
  [(['1'], 2000), (['5'], 2000), (['6', '0'], 800), (['1', '2', '0'], 800), (['D'], 365)]

/-- One iteration of the per-timeframe loop of `#ensureAllTimeframeSMAs`:
skip when fresh, use view values when complete, otherwise fetch candles,
cache the three SMA periods, and store the updated view values; the
per-timeframe marker is set in every non-skipped case. -/
def ensureTF (o : Oracle) (now : ℤ) (sym : String) (st : Engine)
    (tf : List Char × ℕ) : Engine :=
  let today := dayOfTs now
  let res := tf.1
  if lookupT st.lastFetch (sym, res) = some today ∧ (lookupA (getTFMap st res) sym).isSome then
    st
  else
    let smaValues := dbGetAllSMA st.db sym res
    if smaValues.sma20.isSome ∧ smaValues.sma50.isSome ∧ smaValues.sma200.isSome then
      let st2 := setTFMap st res (setA (getTFMap st res) sym smaValues)
      { st2 with lastFetch := setT st2.lastFetch (sym, res) today }
    else
      let candles := o sym res tf.2
      let st2 :=
        if candles.isEmpty then st
        else
          let db1 := dbCacheSMA st.db sym res 20 candles
          let db2 := dbCacheSMA db1 sym res 50 candles
          let db3 := dbCacheSMA db2 sym res 200 candles
          let upd := dbGetAllSMA db3 sym res
          let stDb := { st with db := db3 }
          setTFMap stDb res (setA (getTFMap stDb res) sym upd)
      { st2 with lastFetch := setT st2.lastFetch (sym, res) today }

/-- Whether all five per-timeframe maps hold a snapshot for the symbol. -/
def allTFLoaded (st : Engine) (sym : String) : Bool :=
  (lookupA st.res1m sym).isSome && (lookupA st.res5m sym).isSome
    && (lookupA st.res60m sym).isSome && (lookupA st.res120m sym).isSome
    && (lookupA st.resD sym).isSome

/-- `#ensureAllTimeframeSMAs` (lines 254–385): skip when the overall marker
is fresh and all five maps are loaded; otherwise query all five view values
at once and, when all are complete, store them; else run the per-timeframe
loop; finally set the overall marker when all five maps are loaded. -/
def ensureAllTimeframeSMAs (o : Oracle) (now : ℤ) (st : Engine) (sym : String) : Engine :=
  let today := dayOfTs now
  let tag := (sym, "allTimeframes".toList)
  if lookupT st.lastFetch tag = some today ∧ allTFLoaded st sym then
    st
  else
    let all1 := dbGetAllSMA st.db sym ['1']
    let all5 := dbGetAllSMA st.db sym ['5']
    let all60 := dbGetAllSMA st.db sym ['6', '0']
    let all120 := dbGetAllSMA st.db sym ['1', '2', '0']
    let allD := dbGetAllSMA st.db sym ['D']
    let complete := [all1, all5, all60, all120, allD].all
      (fun s => s.sma20.isSome && s.sma50.isSome && s.sma200.isSome)
    if complete then
      { st with
        res1m := setA st.res1m sym all1
        res5m := setA st.res5m sym all5
        res60m := setA st.res60m sym all60
        res120m := setA st.res120m sym all120
        resD := setA st.resD sym allD
        lastFetch := setT st.lastFetch tag today }
    else
      let st2 := tfLookbacks.foldl (ensureTF o now sym) st
      if allTFLoaded st2 sym then
        { st2 with lastFetch := setT st2.lastFetch tag today }
      else st2

/-- `#ensureSMA` (lines 166–252): memory cache, then the view-based query,
then the three individual cached-SMA queries (a cached value of 0 counts as
missing under JS truthiness), then a broker fetch cached through `cacheSMA`;
in every path the per-symbol marker is set and the all-timeframe hydration
runs afterwards. -/
def ensureSMA (o : Oracle) (now : ℤ) (st : Engine) (sym : String) : Engine :=
  let today := dayOfTs now
  let tag := (sym, st.smaRes)
  if lookupT st.lastFetch tag = some today ∧ (lookupA st.smaMap sym).isSome then
    st
  else
    let allS := dbGetAllSMA st.db sym st.smaRes
    if allS.sma20.isSome ∧ allS.sma50.isSome ∧ allS.sma200.isSome then
      let st2 := { st with
        smaMap := setA st.smaMap sym allS
        lastFetch := setT st.lastFetch tag today }
      ensureAllTimeframeSMAs o now st2 sym
    else
      let s20 := (dbGetCachedSMA st.db sym st.smaRes 20).toOption
      let s50 := (dbGetCachedSMA st.db sym st.smaRes 50).toOption
      let s200 := (dbGetCachedSMA st.db sym st.smaRes 200).toOption
      let v20 := (s20.map (fun r => r.value)).getD none
      let v50 := (s50.map (fun r => r.value)).getD none
      let v200 := (s200.map (fun r => r.value)).getD none
      if jsTruthy v20 && jsTruthy v50 && jsTruthy v200 then
        let st2 := { st with
          smaMap := setA st.smaMap sym { sma20 := v20, sma50 := v50, sma200 := v200 }
          lastFetch := setT st.lastFetch tag today }
        ensureAllTimeframeSMAs o now st2 sym
      else
        let candles := o sym st.smaRes 300
        let st2 :=
          if candles.isEmpty then st
          else
            let db1 := dbCacheSMA st.db sym st.smaRes 20 candles
            let db2 := dbCacheSMA db1 sym st.smaRes 50 candles
            let db3 := dbCacheSMA db2 sym st.smaRes 200 candles
            let upd := dbGetAllSMA db3 sym st.smaRes
            { st with db := db3, smaMap := setA st.smaMap sym upd }
        let st3 := { st2 with lastFetch := setT st2.lastFetch tag today }
        ensureAllTimeframeSMAs o now st3 sym

/-- `tick(symbol, ltp)` (lines 130–146): hydrate daily and SMA state, then
dereference the last daily candle — a `TypeError` when the window is absent
or empty — mutate it with the live price, persist it, and re-analyze. -/
def tick (o : Oracle) (now : ℤ) (st : Engine) (sym : String) (ltp : ℚ) :
    Except JsErr (Engine × List Emission) :=
  let st1 := ensureDaily o now st sym
  let st2 := ensureSMA o now st1 sym
  match lookupA st2.dailyMap sym with
  | none => Except.error JsErr.typeError
  | some daily =>
    match daily.getLast? with
    | none => Except.error JsErr.typeError
    | some tdy =>
      let prevC := tdy.c
      let tdy2 := { tdy with
        c := ltp
        h := if ltp > tdy.h then ltp else tdy.h
        l := if ltp < tdy.l then ltp else tdy.l }
      let daily2 := daily.dropLast ++ [tdy2]
      let st3 := { st2 with
        dailyMap := setA st2.dailyMap sym daily2
        db := dbStoreCandles st2.db sym ['D'] [tdy2] }
      let isPriority :=
        if prevC = 0 then !(decide (ltp = 0))
        else decide (|(ltp - prevC) / prevC * 100| ≥ 1 / 2)
      analyzeEngine st3 sym isPriority

/-! ### Edge-triggered emission (C3), bearish signals (C8), tick on an empty
window (C9) -/

/-- Run `#diff` over a sequence of computed verdicts for one symbol, tagging
each emission with the index of the analysis that produced it. -/
def runDiffAux (sym : String) : Engine → ℕ → List Verdict → List (ℕ × Emission) →
    Except JsErr (Engine × List (ℕ × Emission))
  | st, _, [], acc => Except.ok (st, acc)
  | st, i, v :: vs, acc =>
    match diffEngine st sym v with
    | Except.error e => Except.error e
    | Except.ok (st2, evs) => runDiffAux sym st2 (i + 1) vs (acc ++ evs.map (fun e => (i, e)))

/-- Run a verdict sequence from index 0 with no accumulated emissions. -/
def runDiffSeq (st : Engine) (sym : String) (vs : List Verdict) :
    Except JsErr (Engine × List (ℕ × Emission)) :=
  runDiffAux sym st 0 vs []

/-- Whether an emission is a signal-open. -/
def isOpenEm : Emission → Bool
  | Emission.bullishSig _ _ => true
  | Emission.clearSig _ => false

/-- The observable summary of a run: `(index, isOpen)` per emission, `none`
on a thrown error. -/
def emissionSummary (r : Except JsErr (Engine × List (ℕ × Emission))) :
    Option (List (ℕ × Bool)) :=
  match r with
  | Except.ok (_, evs) => some (evs.map (fun q => (q.1, isOpenEm q.2)))
  | Except.error _ => none

theorem lookupA_append_self {α : Type} (m : List (String × α)) (k : String) (v : α)
    (h : m.any (fun e => e.1 = k) = false) : lookupA (m ++ [(k, v)]) k = some v := by
  induction m with
  | nil => simp [lookupA]
  | cons e m ih =>
    simp only [List.any_cons, Bool.or_eq_false_iff, decide_eq_false_iff_not] at h
    obtain ⟨he, hrest⟩ := h
    unfold lookupA
    rw [List.cons_append, List.find?_cons_of_neg _ (by simp [he])]
    have hr := ih (by simpa using hrest)
    unfold lookupA at hr
    exact hr

theorem lookupA_setA_self {α : Type} (m : List (String × α)) (k : String) (v : α) :
    lookupA (setA m k v) k = some v := by
  unfold setA
  split
  · rename_i hany
    induction m with
    | nil => simp at hany
    | cons e m ih =>
      by_cases he : e.1 = k
      · simp [lookupA, List.find?_cons, he]
      · simp only [List.any_cons, Bool.or_eq_true, decide_eq_true_eq] at hany
        rcases hany with h | h
        · exact absurd h he
        · simp only [List.map_cons, if_neg he]
          unfold lookupA
          rw [List.find?_cons_of_neg _ (by simp [he])]
          exact ih h
  · rename_i hany
    exact lookupA_append_self m k v (Bool.eq_false_iff.mpr hany)

/-- C3: signal emission is edge-triggered — starting with no stored verdict
for the symbol, a sequence of analyses with computed verdicts
`[false, false, true, true, false]` emits exactly one signal-open, at the
false→true transition (index 2), and exactly one signal-clear, at the
true→false transition (index 4); consecutive identical verdicts emit
nothing. -/
theorem edge_triggered_emission (st : Engine) (sym : String) (a : Candle)
    (t : List Candle) (hd : lookupA st.dailyMap sym = some (a :: t))
    (hs : lookupA st.stateMap sym = none)
    (v1 v2 v3 v4 v5 : Verdict)
    (h1 : v1.bullish = false) (h2 : v2.bullish = false) (h3 : v3.bullish = true)
    (h4 : v4.bullish = true) (h5 : v5.bullish = false) :
    emissionSummary (runDiffSeq st sym [v1, v2, v3, v4, v5])
      = some [(2, true), (4, false)] := by
  obtain ⟨latest, hgl⟩ : ∃ x, (a :: t).getLast? = some x :=
    ⟨(a :: t).getLast (by simp), List.getLast?_eq_getLast _ _⟩
  set st1 : Engine := { st with stateMap := setA st.stateMap sym v1 } with hst1
  set st2 : Engine := { st1 with stateMap := setA st1.stateMap sym v2 } with hst2
  set st3 : Engine := { st2 with stateMap := setA st2.stateMap sym v3 } with hst3
  set st4 : Engine := { st3 with stateMap := setA st3.stateMap sym v4 } with hst4
  set st5 : Engine := { st4 with stateMap := setA st4.stateMap sym v5 } with hst5
  have e1 : diffEngine st sym v1 = Except.ok (st1, []) := by
    unfold diffEngine
    rw [hs, h1]
    simp
  have e2 : diffEngine st1 sym v2 = Except.ok (st2, []) := by
    unfold diffEngine
    rw [show lookupA st1.stateMap sym = some v1 from lookupA_setA_self _ _ _, h2]
    simp [h1]
  have e3 : diffEngine st2 sym v3 = Except.ok (st3,
      [Emission.bullishSig (sym, st.smaRes)
        (mkTrade st.smaRes sym latest (((a :: t)[((a :: t).length - 2)]?).getD latest))]) := by
    unfold diffEngine
    rw [show lookupA st2.stateMap sym = some v2 from lookupA_setA_self _ _ _, h3]
    dsimp only
    rw [show lookupA st2.dailyMap sym = some (a :: t) from hd]
    dsimp only
    rw [hgl]
    simp [h2, hst3, hst2, hst1]
  have e4 : diffEngine st3 sym v4 = Except.ok (st4, []) := by
    unfold diffEngine
    rw [show lookupA st3.stateMap sym = some v3 from lookupA_setA_self _ _ _, h4]
    simp [h3]
  have e5 : diffEngine st4 sym v5 = Except.ok (st5, [Emission.clearSig (sym, st.smaRes)]) := by
    unfold diffEngine
    rw [show lookupA st4.stateMap sym = some v4 from lookupA_setA_self _ _ _, h5]
    simp [h4]
  unfold runDiffSeq
  unfold runDiffAux
  rw [e1]
  unfold runDiffAux
  rw [e2]
  unfold runDiffAux
  rw [e3]
  unfold runDiffAux
  rw [e4]
  unfold runDiffAux
  rw [e5]
  unfold runDiffAux
  simp [emissionSummary, isOpenEm]

/-- A concrete all-false verdict used by the emission witness. -/
def vdFalse : Verdict :=
  { symbol := "NSE:SBIN-EQ", bullish := false, rangeOK := false,
    closeGTopen := false, closeGTyest := false, volYestOK := false,
    wkBull := false, moBull := false, smaOK := false, s20 := none,
    s50 := none, s200 := none, ma20GT200 := false, isPriorityCheck := false }

/-- The same verdict with `bullish = true`. -/
def vdTrue : Verdict := { vdFalse with bullish := true }

/-- An engine with one symbol's daily window loaded and no stored verdicts. -/
def engineWitness : Engine :=
  { smaRes := ['6', '0'],
    dailyMap := [("NSE:SBIN-EQ", [{ t := 1704672000, o := 1, h := 2, l := 1, c := 2, v := 100 }])],
    smaMap := [], res1m := [], res5m := [], res60m := [], res120m := [],
    resD := [], stateMap := [], lastFetch := [], db := [] }

/-- Witness for `edge_triggered_emission`: the concrete verdict sequence
`[false, false, true, true, false]` on `engineWitness`. -/
theorem edge_triggered_emission_witness :
    emissionSummary (runDiffSeq engineWitness "NSE:SBIN-EQ"
      [vdFalse, vdFalse, vdTrue, vdTrue, vdFalse]) = some [(2, true), (4, false)] :=
  edge_triggered_emission engineWitness "NSE:SBIN-EQ"
    { t := 1704672000, o := 1, h := 2, l := 1, c := 2, v := 100 } []
    rfl rfl vdFalse vdFalse vdTrue vdTrue vdFalse rfl rfl rfl rfl rfl

/-- C8: `getBearishSignals()` returns the empty array in every engine state —
no sequence of ticks, resolution changes or analyses can make it non-empty,
since the method body is `return []`. -/
theorem getBearishSignals_always_empty (st : Engine) : getBearishSignals st = [] := rfl

/-- The engine state before any tick: default resolution "60", empty maps,
empty store. -/
def emptyEngine : Engine :=
  { smaRes := ['6', '0'], dailyMap := [], smaMap := [], res1m := [], res5m := [],
    res60m := [], res120m := [], resD := [], stateMap := [], lastFetch := [], db := [] }

/-- A broker that returns zero candles for every request. -/
def nilOracle : Oracle := fun _ _ _ => []

/-- C9: `tick` requires a non-empty daily window — when the store is empty
and the broker returns zero candles, `#ensureDaily` leaves an empty array
for the symbol and `tick` throws a `TypeError` at `daily.at(-1)[C]` instead
of returning a result; the error is reachable at the public `tick`
interface. -/
theorem tick_empty_daily_typeError :
    tick nilOracle (19739 * 86400) emptyEngine "NSE:SBIN-EQ" 100
      = Except.error JsErr.typeError := rfl

/-! ### The §8 analyze scenario (C1).

Days are in January 2024 (day number 19730 = 2024-01-08, a Monday): the
candles run on consecutive calendar days, the last three fall in ISO week 3
and all fall in month 2024-01, so the last weekly and monthly rollup candles
span exactly the intended groups. -/

/-- A daily candle at day `19730 + k` (midnight UTC). -/
def mkDay (k : ℤ) (o h l c v : ℚ) : Candle :=
  { t := (19730 + k) * 86400, o := o, h := h, l := l, c := c, v := v }

/-- An unremarkable scenario day: range 2, flat close, volume 20 000. -/
def calmDay (k : ℤ) : Candle := mkDay k 100 101 99 100 20000

/-- The scenario's final day: range 14 (exceeding every earlier range 2),
close 110 above open 100 and above the previous close. -/
def bigDay (k : ℤ) : Candle := mkDay k 100 112 98 110 50000

/-- The §8 scenario with exactly 8 daily candles: day 8's range exceeds each
of days 1–7, close > open, close > previous close, previous day volume
15 000, and the last weekly and monthly rollups are bullish. -/
def scenario8 : List Candle :=
  [calmDay 2, calmDay 3, calmDay 4, calmDay 5, calmDay 6, calmDay 7,
   mkDay 8 100 101 99 100 15000, bigDay 9]

/-- The same market shape extended to 10 daily candles (two extra calm days
before the window), yesterday's volume 15 000. -/
def scenario10 : List Candle :=
  [calmDay 0, calmDay 1, calmDay 2, calmDay 3, calmDay 4, calmDay 5,
   calmDay 6, calmDay 7, mkDay 8 100 101 99 100 15000, bigDay 9]

/-- `scenario10` with only yesterday's volume flipped to 5 000. -/
def scenario10lowVol : List Candle :=
  [calmDay 0, calmDay 1, calmDay 2, calmDay 3, calmDay 4, calmDay 5,
   calmDay 6, calmDay 7, mkDay 8 100 101 99 100 5000, bigDay 9]

/-- The §8 SMA snapshot: SMA20 = 105 > SMA50 = 100 > SMA200 = 90. -/
def scenarioSMA : Sma3 := { sma20 := some 105, sma50 := some 100, sma200 := some 90 }

/-- C1 (counterexample): on the §8 scenario as stated — 8 daily candles,
all seven conditions satisfied (day 8's range exceeds each of days 1–7,
close > open, close > previous close, yesterday's volume 15 000 > 10 000,
weekly and monthly rollups bullish, SMA 105 > 100 > 90) — `analyze`
produces NO verdict at all: the code returns early whenever the daily
window holds fewer than 10 candles. -/
theorem analyze_8day_scenario_no_verdict :
    ((List.range 7).all fun i =>
      decide (qSub (bigDay 9).h (bigDay 9).l >
        qSub ((scenario8[(scenario8.length - (2 + i))]?).getD dummyCandle).h
          ((scenario8[(scenario8.length - (2 + i))]?).getD dummyCandle).l)) = true
    ∧ (bigDay 9).c > (bigDay 9).o
    ∧ (bigDay 9).c > (mkDay 8 100 101 99 100 15000).c
    ∧ (mkDay 8 100 101 99 100 15000).v = 15000
    ∧ ((rollup RMode.W scenario8).getLastD dummyCandle).c
        > ((rollup RMode.W scenario8).getLastD dummyCandle).o
    ∧ ((rollup RMode.M scenario8).getLastD dummyCandle).c
        > ((rollup RMode.M scenario8).getLastD dummyCandle).o
    ∧ (105 : ℚ) > 100 ∧ (100 : ℚ) > 90
    ∧ scenario8.length = 8
    ∧ analyzeVerdict "NSE:SBIN-EQ" (some scenario8) (some scenarioSMA)
        none none false = none := by
  decide

/-- C1 (amended): the §8 scenario needs at least 10 daily candles before
`analyze` produces a verdict. On the scenario extended to 10 candles (the
last day still satisfying every §8 condition) `analyze` returns
`bullish = true`; flipping only yesterday's volume to 5 000 returns
`bullish = false` with `volYestOK = false` and every other condition flag
unchanged. -/
theorem analyze_10day_scenario :
    ((analyzeVerdict "NSE:SBIN-EQ" (some scenario10) (some scenarioSMA)
        none none false).map Verdict.bullish = some true)
    ∧ ((analyzeVerdict "NSE:SBIN-EQ" (some scenario10lowVol) (some scenarioSMA)
        none none false).map Verdict.bullish = some false)
    ∧ ((analyzeVerdict "NSE:SBIN-EQ" (some scenario10) (some scenarioSMA)
        none none false).map Verdict.volYestOK = some true)
    ∧ ((analyzeVerdict "NSE:SBIN-EQ" (some scenario10lowVol) (some scenarioSMA)
        none none false).map Verdict.volYestOK = some false)
    ∧ ((analyzeVerdict "NSE:SBIN-EQ" (some scenario10) (some scenarioSMA)
        none none false).map Verdict.rangeOK
      = (analyzeVerdict "NSE:SBIN-EQ" (some scenario10lowVol) (some scenarioSMA)
        none none false).map Verdict.rangeOK)
    ∧ ((analyzeVerdict "NSE:SBIN-EQ" (some scenario10) (some scenarioSMA)
        none none false).map Verdict.closeGTopen
      = (analyzeVerdict "NSE:SBIN-EQ" (some scenario10lowVol) (some scenarioSMA)
        none none false).map Verdict.closeGTopen)
    ∧ ((analyzeVerdict "NSE:SBIN-EQ" (some scenario10) (some scenarioSMA)
        none none false).map Verdict.closeGTyest
      = (analyzeVerdict "NSE:SBIN-EQ" (some scenario10lowVol) (some scenarioSMA)
        none none false).map Verdict.closeGTyest)
    ∧ ((analyzeVerdict "NSE:SBIN-EQ" (some scenario10) (some scenarioSMA)
        none none false).map Verdict.wkBull
      = (analyzeVerdict "NSE:SBIN-EQ" (some scenario10lowVol) (some scenarioSMA)
        none none false).map Verdict.wkBull)
    ∧ ((analyzeVerdict "NSE:SBIN-EQ" (some scenario10) (some scenarioSMA)
        none none false).map Verdict.moBull
      = (analyzeVerdict "NSE:SBIN-EQ" (some scenario10lowVol) (some scenarioSMA)
        none none false).map Verdict.moBull)
    ∧ ((analyzeVerdict "NSE:SBIN-EQ" (some scenario10) (some scenarioSMA)
        none none false).map Verdict.smaOK
      = (analyzeVerdict "NSE:SBIN-EQ" (some scenario10lowVol) (some scenarioSMA)
        none none false).map Verdict.smaOK)
    ∧ ((analyzeVerdict "NSE:SBIN-EQ" (some scenario10) (some scenarioSMA)
        none none false).map Verdict.s20
      = (analyzeVerdict "NSE:SBIN-EQ" (some scenario10lowVol) (some scenarioSMA)
        none none false).map Verdict.s20)
    ∧ ((analyzeVerdict "NSE:SBIN-EQ" (some scenario10) (some scenarioSMA)
        none none false).map Verdict.s50
      = (analyzeVerdict "NSE:SBIN-EQ" (some scenario10lowVol) (some scenarioSMA)
        none none false).map Verdict.s50)
    ∧ ((analyzeVerdict "NSE:SBIN-EQ" (some scenario10) (some scenarioSMA)
        none none false).map Verdict.s200
      = (analyzeVerdict "NSE:SBIN-EQ" (some scenario10lowVol) (some scenarioSMA)
        none none false).map Verdict.s200)
    ∧ ((analyzeVerdict "NSE:SBIN-EQ" (some scenario10) (some scenarioSMA)
        none none false).map Verdict.rangeOK = some true)
    ∧ ((analyzeVerdict "NSE:SBIN-EQ" (some scenario10) (some scenarioSMA)
        none none false).map Verdict.closeGTopen = some true)
    ∧ ((analyzeVerdict "NSE:SBIN-EQ" (some scenario10) (some scenarioSMA)
        none none false).map Verdict.closeGTyest = some true)
    ∧ ((analyzeVerdict "NSE:SBIN-EQ" (some scenario10) (some scenarioSMA)
        none none false).map Verdict.wkBull = some true)
    ∧ ((analyzeVerdict "NSE:SBIN-EQ" (some scenario10) (some scenarioSMA)
        none none false).map Verdict.moBull = some true)
    ∧ ((analyzeVerdict "NSE:SBIN-EQ" (some scenario10) (some scenarioSMA)
        none none false).map Verdict.smaOK = some true) := by
  decide
